import Mathlib

/-!
Shallow embedding of the traced linear-system solver engine
(`src/utils/solverLogic.js` and `src/utils/compareAlgorithms.js` of the
Interactive Linear System Solver repository), together with proofs about it.

Modelling conventions:

* JS numbers are modelled as exact rationals (`ℚ`).  A JS array of numbers is
  modelled as its lookup function `Nat → ℚ` together with the explicit length
  `n` of the system; writing `a[i] = v` becomes a pointwise functional update.
* Every place where the source pushes a snapshot onto `steps`, the embedding
  materialises the snapshot as a concrete `List (List ℚ)` / `List ℚ` value,
  exactly as the source's `copyMatrix`/`copyVector` materialise fresh arrays.
* Object identity (aliasing) of the matrix/vector stored in a step is modelled
  by an allocation address: the caller's `matrix` array has address 0 and the
  caller's `vector` array address 1; the direct solvers' working copies
  (`copyMatrix(matrix)`, `copyVector(vector)`) get addresses 2 and 3, and every
  subsequent `copyMatrix`/`copyVector` pair at a `steps.push` site allocates the
  next two addresses (field `next` of the solver state).  The iterative solvers
  push the caller's arrays themselves (`matrix: matrix, vector: vector` in the
  source), so their steps carry the caller's addresses 0 and 1 unchanged.
* The human-readable `description` strings of the source are represented by the
  constructor (and its numeric arguments) of `StepKind`: each push site of the
  source has its own constructor.  No claim depends on the description text
  itself, only on which kind of step is recorded where.
* `Math.sqrt` is irrational-valued, so the iterative solvers store the squared
  Euclidean error (`errorSqHistory`, `errSq`) and the convergence test
  `Math.sqrt(errorSum) < tolerance` is embedded as the exact equivalent test
  `0 < tolerance ∧ errorSum < tolerance²` (`convTest`); the lemma
  `convTest_iff_sqrt` below proves this equivalence against `Real.sqrt`, so all
  statements about "the Euclidean-norm error" are phrased with `Real.sqrt`.
-/

namespace LinearSolver

/-- Vectors: a JS number array modelled as its lookup function. -/
abbrev Vec := Nat → ℚ

/-- Matrices: a JS array of rows modelled as its two-level lookup function. -/
abbrev Mat := Nat → Nat → ℚ

/-- Pointwise array write `v[i] = a`. -/
def upd (v : Vec) (i : Nat) (a : ℚ) : Vec :=
  fun i' => if i' = i then a else v i'

/-- Pointwise matrix cell write `A[i][j] = a`. -/
def updM (A : Mat) (i j : Nat) (a : ℚ) : Mat :=
  fun i' j' => if i' = i ∧ j' = j then a else A i' j'

/-- Row swap `[A[k], A[p]] = [A[p], A[k]]`. -/
def swapRows (A : Mat) (k p : Nat) : Mat :=
  fun i => if i = k then A p else if i = p then A k else A i

/-- Entry swap `[b[k], b[p]] = [b[p], b[k]]`. -/
def swapVec (v : Vec) (k p : Nat) : Vec :=
  fun i => if i = k then v p else if i = p then v k else v i

/-- Materialised snapshot of the first `n` rows/columns of a matrix, as
`copyMatrix` produces (a fresh concrete array of fresh rows). -/
def matList (n : Nat) (A : Mat) : List (List ℚ) :=
  (List.range n).map (fun i => (List.range n).map (fun j => A i j))

/-- Materialised snapshot of the first `n` entries of a vector (`copyVector`). -/
def vecList (n : Nat) (v : Vec) : List ℚ :=
  (List.range n).map v

/-- The `highlights` metadata of a recorded step. -/
structure Highlights where
  rows : List Nat
  cols : List Nat
  cells : List (Nat × Nat)
deriving DecidableEq

/-- Empty highlights (`highlights: {}` in the source). -/
def noHl : Highlights := ⟨[], [], []⟩

/-- One constructor per `steps.push` site of the source; the numeric arguments
are the indices interpolated into the source's description string. -/
inductive StepKind where
  | header
  | pivotSelect (k : Nat)
  | swapStep (k p : Nat)
  | eliminate (i k : Nat)
  | backSubStart
  | solveRow (i : Nat)
  | normalize (k : Nat)
  | rrefComplete
  | initialGuess
  | iteration (it : Nat)
deriving DecidableEq

/-- A recorded step.  `matrixAddr`/`vectorAddr` model the identity of the array
object stored in the step's `matrix`/`vector` field (see the header comment);
`matrix`/`vector` are the values those arrays hold when the step is pushed. -/
structure Step where
  matrixAddr : Nat
  vectorAddr : Nat
  matrix : List (List ℚ)
  vector : List ℚ
  kind : StepKind
  highlights : Highlights
  xCurrent : Option (List ℚ)
  errorSqHistory : Option (List ℚ)
deriving DecidableEq

/-- The `type` field of a solver result. -/
inductive SolveType where
  | direct
  | iterative
deriving DecidableEq

/-- The result record returned by every solver.  `converged` is `none` for
direct methods (the field is absent in the source's direct results). -/
structure SolveResult where
  steps : List Step
  solution : List ℚ
  stype : SolveType
  converged : Option Bool
deriving DecidableEq

/-- Address of the caller's live `matrix` array. -/
def callerMatrixAddr : Nat := 0

/-- Address of the caller's live `vector` array. -/
def callerVectorAddr : Nat := 1

/-- Working state of a direct solver: the working copies `A`, `b`, the list of
recorded steps, and the next fresh allocation address. -/
structure DState where
  A : Mat
  b : Vec
  steps : List Step
  next : Nat

/-- The step value materialised by a `steps.push({matrix: copyMatrix(A), vector:
copyVector(b), ...})` site of a direct solver: two fresh arrays are allocated. -/
def mkStep (n : Nat) (s : DState) (k : StepKind) (h : Highlights) : Step :=
  { matrixAddr := s.next, vectorAddr := s.next + 1,
    matrix := matList n s.A, vector := vecList n s.b,
    kind := k, highlights := h, xCurrent := none, errorSqHistory := none }

/-- Push a snapshot step (direct solvers). -/
def pushStep (n : Nat) (s : DState) (k : StepKind) (h : Highlights) : DState :=
  { s with steps := s.steps ++ [mkStep n s k h], next := s.next + 2 }

/-- Allocation invariant of a direct solver's state: addresses 0/1 are the
caller's arrays, 2/3 the solver's working copies, and the `t`-th recorded step
holds the freshly allocated pair `(4 + 2t, 5 + 2t)` — so every recorded
matrix/vector is a copy distinct from the caller's arrays, the working copies,
and every other step's arrays. -/
def AddrInv (s : DState) : Prop :=
  s.next = 4 + 2 * s.steps.length ∧
  ∀ i (hi : i < s.steps.length),
    s.steps[i].matrixAddr = 4 + 2 * i ∧
    s.steps[i].vectorAddr = 4 + 2 * i + 1

/-- The inner `for (let j = k; j < n; j++) A[i][j] -= factor * A[k][j]` loop. -/
def subRowA (n k i : Nat) (f : ℚ) (A : Mat) : Mat :=
  (List.range' k (n - k)).foldl (fun M j => updM M i j (M i j - f * M k j)) A

/-- The matching `b[i] = b[i] - factor * b[k]` update. -/
def subRowB (k i : Nat) (f : ℚ) (b : Vec) : Vec :=
  upd b i (b i - f * b k)

/-- Value-level single row elimination of Gauss elimination:
`factor = A[i][k] / A[k][k]` followed by the row update. -/
def geElimRowV (n k : Nat) (s : Mat × Vec) (i : Nat) : Mat × Vec :=
  (subRowA n k i (s.1 i k / s.1 k k) s.1, subRowB k i (s.1 i k / s.1 k k) s.2)

/-- Value-level elimination phase of column `k` (rows `k+1 .. n-1`). -/
def geStageV (n : Nat) (s : Mat × Vec) (k : Nat) : Mat × Vec :=
  (List.range' (k + 1) (n - (k + 1))).foldl (geElimRowV n k) s

/-- Value-level state of plain Gauss elimination after `k` full columns. -/
def geV (n : Nat) (A0 : Mat) (b0 : Vec) (k : Nat) : Mat × Vec :=
  (List.range k).foldl (geStageV n) (A0, b0)

/-- Plain Gauss elimination never divides by zero iff every diagonal pivot, at
the moment it is used, is nonzero. -/
def noZeroPivotGE (n : Nat) (A0 : Mat) (b0 : Vec) : Prop :=
  ∀ k < n, (geV n A0 b0 k).1 k k ≠ 0

/-- Full (step-recording) single row elimination of Gauss elimination: the
"Eliminating Row i" step is pushed before the mutation, as in the source. -/
def geElimRow (n k : Nat) (s : DState) (i : Nat) : DState :=
  { pushStep n s (.eliminate i k) ⟨[i, k], [], [(i, k)]⟩ with
    A := (geElimRowV n k (s.A, s.b) i).1, b := (geElimRowV n k (s.A, s.b) i).2 }

/-- Full stage of plain Gauss elimination for column `k`: push the "Select
pivot" step, then eliminate rows `k+1 .. n-1`. -/
def geStage (n : Nat) (s : DState) (k : Nat) : DState :=
  let s1 := pushStep n s (.pivotSelect k) ⟨[], [], [(k, k)]⟩
  (List.range' (k + 1) (n - (k + 1))).foldl (geElimRow n k) s1

/-- State (with steps) of plain Gauss elimination after `k` full columns,
starting from the initial header step. -/
def geState (n : Nat) (A0 : Mat) (b0 : Vec) (k : Nat) : DState :=
  (List.range k).foldl (geStage n) (pushStep n ⟨A0, b0, [], 4⟩ .header noHl)

/-- The back-substitution value
`x[i] = (b[i] - Σ_{j=i+1}^{n-1} A[i][j]·x[j]) / A[i][i]`
(the inner sum is the source's accumulating `sum` loop). -/
def backSubVal (n : Nat) (A : Mat) (b : Vec) (x : Vec) (i : Nat) : ℚ :=
  (b i - (List.range' (i + 1) (n - (i + 1))).foldl (fun s j => s + A i j * x j) 0) / A i i

/-- One back-substitution step: solve `x[i]`, then push the "Solving x[i]"
step. -/
def geBackSub (n : Nat) (sx : DState × Vec) (i : Nat) : DState × Vec :=
  let x' := upd sx.2 i (backSubVal n sx.1.A sx.1.b sx.2 i)
  (pushStep n sx.1 (.solveRow i) ⟨[i], [], []⟩, x')

/-- Value-level back substitution processing rows `m-1, m-2, …, 0`. -/
def bsV (n : Nat) (A : Mat) (b : Vec) : Nat → Vec → Vec
  | 0, x => x
  | m + 1, x => bsV n A b m (upd x m (backSubVal n A b x m))

/-- The solver `solveGaussElimination` (lines 17–82 of `solverLogic.js`):
header step, forward elimination without pivoting, "Starting Back Substitution"
step, back substitution. -/
def solveGaussElimination (n : Nat) (matrix : Mat) (vector : Vec) : SolveResult :=
  let s2 := geState n matrix vector n
  let s3 := pushStep n s2 .backSubStart noHl
  let fin := ((List.range n).reverse).foldl (geBackSub n) (s3, fun _ => 0)
  { steps := fin.1.steps, solution := vecList n fin.2, stype := .direct, converged := none }

/-- The pivot search of partial pivoting: scan `i = k+1 .. n-1` and keep the
row with strictly larger `|A[i][k]|`. -/
def pivotSearch (A : Mat) (k n : Nat) : Nat :=
  (List.range' (k + 1) (n - (k + 1))).foldl (fun p i => if |A i k| > |A p k| then i else p) k

/-- Value-level swap phase of a pivoting stage: swap rows `k` and `pivotRow` of
`A` and `b` when they differ. -/
def pivSwapV (n k : Nat) (s : Mat × Vec) : Mat × Vec :=
  if pivotSearch s.1 k n ≠ k then
    (swapRows s.1 k (pivotSearch s.1 k n), swapVec s.2 k (pivotSearch s.1 k n))
  else s

/-- Value-level stage of Gauss elimination with partial pivoting. -/
def pivStageV (n : Nat) (s : Mat × Vec) (k : Nat) : Mat × Vec :=
  (List.range' (k + 1) (n - (k + 1))).foldl (geElimRowV n k) (pivSwapV n k s)

/-- Value-level state of the pivoting solver after `k` full columns. -/
def pivV (n : Nat) (A0 : Mat) (b0 : Vec) (k : Nat) : Mat × Vec :=
  (List.range k).foldl (pivStageV n) (A0, b0)

/-- The pivoting solver never divides by zero iff every pivot, measured after
the row swap of its stage, is nonzero. -/
def noZeroPivotPiv (n : Nat) (A0 : Mat) (b0 : Vec) : Prop :=
  ∀ k < n, (pivSwapV n k (pivV n A0 b0 k)).1 k k ≠ 0

/-- Full swap phase: mutate `A`/`b`, then push the "[PIVOTING] Swap Row …" step
with `highlights.rows = [k, p]` (only when `pivotRow ≠ k`). -/
def pivSwap (n k : Nat) (s : DState) : DState :=
  if pivotSearch s.A k n ≠ k then
    pushStep n
      { s with A := swapRows s.A k (pivotSearch s.A k n),
               b := swapVec s.b k (pivotSearch s.A k n) }
      (.swapStep k (pivotSearch s.A k n)) ⟨[k, pivotSearch s.A k n], [], []⟩
  else s

/-- Full stage of the pivoting solver for column `k`: optional swap step, the
"Selected pivot" step, then elimination of rows `k+1 .. n-1`. -/
def pivStage (n : Nat) (s : DState) (k : Nat) : DState :=
  let s2 := pushStep n (pivSwap n k s) (.pivotSelect k) ⟨[], [], [(k, k)]⟩
  (List.range' (k + 1) (n - (k + 1))).foldl (geElimRow n k) s2

/-- State (with steps) of the pivoting solver after `k` full columns. -/
def pivState (n : Nat) (A0 : Mat) (b0 : Vec) (k : Nat) : DState :=
  (List.range k).foldl (pivStage n) (pushStep n ⟨A0, b0, [], 4⟩ .header noHl)

/-- The solver `solveGaussEliminationWithPivoting` (lines 136–221):
header step, forward elimination with partial pivoting, back substitution. -/
def solveGaussEliminationWithPivoting (n : Nat) (matrix : Mat) (vector : Vec) : SolveResult :=
  let s2 := pivState n matrix vector n
  let s3 := pushStep n s2 .backSubStart noHl
  let fin := ((List.range n).reverse).foldl (geBackSub n) (s3, fun _ => 0)
  { steps := fin.1.steps, solution := vecList n fin.2, stype := .direct, converged := none }

/-- The `for (let j = k; j < n; j++) A[k][j] /= pivotValue` loop of
Gauss-Jordan. -/
def normRowA (n k : Nat) (p : ℚ) (A : Mat) : Mat :=
  (List.range' k (n - k)).foldl (fun M j => updM M k j (M k j / p)) A

/-- Value-level pivot-row normalisation of Gauss-Jordan. -/
def gjNormV (n k : Nat) (s : Mat × Vec) : Mat × Vec :=
  (normRowA n k (s.1 k k) s.1, upd s.2 k (s.2 k / s.1 k k))

/-- Value-level Gauss-Jordan row elimination: `factor = A[i][k]` (the pivot row
is already normalised), applied to every row `i ≠ k`. -/
def gjElimRowV (n k : Nat) (s : Mat × Vec) (i : Nat) : Mat × Vec :=
  if i ≠ k then (subRowA n k i (s.1 i k) s.1, subRowB k i (s.1 i k) s.2) else s

/-- Value-level Gauss-Jordan stage: swap, normalise, eliminate above and
below. -/
def gjStageV (n : Nat) (s : Mat × Vec) (k : Nat) : Mat × Vec :=
  (List.range n).foldl (gjElimRowV n k) (gjNormV n k (pivSwapV n k s))

/-- Value-level state of Gauss-Jordan after `k` full columns. -/
def gjV (n : Nat) (A0 : Mat) (b0 : Vec) (k : Nat) : Mat × Vec :=
  (List.range k).foldl (gjStageV n) (A0, b0)

/-- Gauss-Jordan never divides by zero iff every pivot, measured after the row
swap of its stage, is nonzero. -/
def noZeroPivotGJ (n : Nat) (A0 : Mat) (b0 : Vec) : Prop :=
  ∀ k < n, (pivSwapV n k (gjV n A0 b0 k)).1 k k ≠ 0

/-- Full Gauss-Jordan row elimination step (skips `i = k`). -/
def gjElimRow (n k : Nat) (s : DState) (i : Nat) : DState :=
  if i ≠ k then
    { pushStep n s (.eliminate i k) ⟨[i, k], [], [(i, k)]⟩ with
      A := (gjElimRowV n k (s.A, s.b) i).1, b := (gjElimRowV n k (s.A, s.b) i).2 }
  else s

/-- Full Gauss-Jordan stage for column `k`: optional swap step, "Select pivot"
step, normalisation (mutate then push "Normalize Row k"), then elimination of
every row `i ≠ k`. -/
def gjStage (n : Nat) (s : DState) (k : Nat) : DState :=
  let s2 := pushStep n (pivSwap n k s) (.pivotSelect k) ⟨[], [], [(k, k)]⟩
  let v := gjNormV n k (s2.A, s2.b)
  let s4 := pushStep n { s2 with A := v.1, b := v.2 } (.normalize k) ⟨[k], [], []⟩
  (List.range n).foldl (gjElimRow n k) s4

/-- State (with steps) of Gauss-Jordan after `k` full columns (the source has
no initial header step in this solver). -/
def gjState (n : Nat) (A0 : Mat) (b0 : Vec) (k : Nat) : DState :=
  (List.range k).foldl (gjStage n) ⟨A0, b0, [], 4⟩

/-- The solver `solveGaussJordan` (lines 224–308): reduce to RREF, read the
solution off `b`, push the final "RREF complete" step. -/
def solveGaussJordan (n : Nat) (matrix : Mat) (vector : Vec) : SolveResult :=
  let s1 := gjState n matrix vector n
  let s2 := pushStep n s1 .rrefComplete noHl
  { steps := s2.steps, solution := vecList n s1.b, stype := .direct, converged := none }

/-- The Jacobi component value
`(b[i] - Σ_{j ≠ i} A[i][j]·x[j]) / A[i][i]` (the inner `sum` loop of the
source, reading only the previous iterate `x`). -/
def jacobiRow (n : Nat) (A : Mat) (b : Vec) (x : List ℚ) (i : Nat) : ℚ :=
  (b i - (List.range n).foldl (fun s j => if i ≠ j then s + A i j * x.getD j 0 else s) 0) / A i i

/-- One Jacobi iteration.  The iterates are the concrete arrays the source
manipulates (`new Array(n).fill(0)`, `[...xNew]`), modelled as `List ℚ`:
`xNew` starts as a zero array and every component is computed from the previous
iterate `x` only. -/
def jacobiIterate (n : Nat) (A : Mat) (b : Vec) (x : List ℚ) : List ℚ :=
  (List.range n).foldl (fun xN i => xN.set i (jacobiRow n A b x i)) (List.replicate n 0)

/-- The Gauss-Seidel component value: the inner `sum` loop reads the
already-updated `xNew[j]` for `j < i` and the old `x[j]` for `j > i`. -/
def seidelRow (n : Nat) (A : Mat) (b : Vec) (x xN : List ℚ) (i : Nat) : ℚ :=
  (b i -
      (List.range n).foldl
        (fun s j =>
          if j ≠ i then
            if j < i then s + A i j * xN.getD j 0 else s + A i j * x.getD j 0
          else s)
        0) / A i i

/-- The Gauss-Seidel inner loop truncated after the first `m` components
(the solver runs it for all `n`; the truncation is only used for reasoning). -/
def seidelGo (n : Nat) (A : Mat) (b : Vec) (x : List ℚ) (m : Nat) : List ℚ :=
  (List.range m).foldl (fun xN i => xN.set i (seidelRow n A b x xN i)) x

/-- One Gauss-Seidel iteration: `xNew` starts as a copy of `x` and every
component is updated in place. -/
def seidelIterate (n : Nat) (A : Mat) (b : Vec) (x : List ℚ) : List ℚ :=
  seidelGo n A b x n

/-- Squared Euclidean error `Σ_i (xNew[i] - x[i])²` (the source's `errorSum`;
its `error` is the square root of this). -/
def errSq (n : Nat) (xNew x : List ℚ) : ℚ :=
  (List.range n).foldl (fun s i => s + (xNew.getD i 0 - x.getD i 0) ^ 2) 0

/-- Exact embedding of the convergence test `Math.sqrt(errorSum) < tolerance`:
for a nonnegative `errorSum` this holds iff `0 < tolerance` and
`errorSum < tolerance²` (lemma `convTest_iff_sqrt`). -/
def convTest (eSq tol : ℚ) : Bool :=
  decide (0 < tol) && decide (eSq < tol * tol)

/-- Working state of an iterative solver: current iterate, accumulated squared
errors (the source's `errors`), recorded steps. -/
structure IState where
  x : List ℚ
  errs : List ℚ
  steps : List Step

/-- The step pushed after iteration `it`: it stores the caller's `matrix` and
`vector` arrays themselves (addresses 0 and 1 — `matrix: matrix, vector:
vector` in the source, with no copy), a fresh copy of `xNew`, and a fresh copy
of the error history so far. -/
def iterStep (n : Nat) (A : Mat) (b : Vec) (it : Nat) (xN : List ℚ) (errs : List ℚ) : Step :=
  { matrixAddr := callerMatrixAddr, vectorAddr := callerVectorAddr,
    matrix := matList n A, vector := vecList n b,
    kind := .iteration it, highlights := noHl,
    xCurrent := some xN, errorSqHistory := some errs }

/-- The "Initial Guess: All zeros" step; like every iterative step it stores
the caller's arrays themselves (addresses 0 and 1). -/
def initialStep (n : Nat) (A : Mat) (b : Vec) (x : List ℚ) : Step :=
  { matrixAddr := callerMatrixAddr, vectorAddr := callerVectorAddr,
    matrix := matList n A, vector := vecList n b,
    kind := .initialGuess, highlights := noHl,
    xCurrent := some x, errorSqHistory := none }

/-- The shared iteration loop of `solveJacobi` and `solveGaussSeidel`
(their source texts are identical apart from the `xNew` computation `iterF`):
compute `xNew`, compute the error, append it to `errors`, record the step,
then either return converged or continue; after `maxIter` iterations return
`converged: false`.  `r` counts the remaining iterations, `it` those already
executed. -/
def iterLoop (iterF : Nat → Mat → Vec → List ℚ → List ℚ) (n : Nat) (A : Mat) (b : Vec)
    (tol : ℚ) : Nat → Nat → IState → SolveResult
  | 0, _, s =>
    { steps := s.steps, solution := s.x, stype := .iterative, converged := some false }
  | r + 1, it, s =>
    let xN := iterF n A b s.x
    let e := errSq n xN s.x
    let errs := s.errs ++ [e]
    let steps := s.steps ++ [iterStep n A b (it + 1) xN errs]
    if convTest e tol then
      { steps := steps, solution := xN, stype := .iterative, converged := some true }
    else
      iterLoop iterF n A b tol r (it + 1) ⟨xN, errs, steps⟩

/-- The solver `solveJacobi` (lines 85–133).  The source's default arguments
are `tolerance = 0.001`, `maxIter = 50`; callers relying on the defaults pass
`1/1000` and `50` explicitly here. -/
def solveJacobi (n : Nat) (matrix : Mat) (vector : Vec) (tolerance : ℚ) (maxIter : Nat) :
    SolveResult :=
  iterLoop jacobiIterate n matrix vector tolerance maxIter 0
    ⟨List.replicate n 0, [], [initialStep n matrix vector (List.replicate n 0)]⟩

/-- The solver `solveGaussSeidel` (lines 311–365). -/
def solveGaussSeidel (n : Nat) (matrix : Mat) (vector : Vec) (tolerance : ℚ) (maxIter : Nat) :
    SolveResult :=
  iterLoop seidelIterate n matrix vector tolerance maxIter 0
    ⟨List.replicate n 0, [], [initialStep n matrix vector (List.replicate n 0)]⟩

/-- The five method keys, in the comparator's fixed iteration order. -/
inductive MKey where
  | gauss
  | pivoting
  | gaussJordan
  | jacobi
  | seidel
deriving DecidableEq

/-- A per-method metrics record of the comparator. -/
structure Metric where
  key : MKey
  name : String
  mtype : SolveType
  steps : Nat
  solution : List ℚ
  converged : Option Bool
  timeComplexity : String
  efficiency : ℚ
  advantage : Option String
  description : Option String
deriving DecidableEq

/-- The comparator's return record. -/
structure ComparisonResult where
  bestMethod : Option MKey
  reason : String
  allMetrics : List Metric
  results : List (MKey × SolveResult)
deriving DecidableEq

/-- The helper `getReason` of `compareAlgorithms.js`: canned recommendation
text keyed by the winning method and its convergence status.  The source
returns `undefined` when a direct method is none of the three known keys (an
unreachable branch); that is modelled by the empty string. -/
def getReason (methodKey : Option MKey) (metrics : MKey → Metric) : String :=
  match methodKey with
  | none => "Unable to determine best method."
  | some mk =>
    if (metrics mk).mtype = SolveType.direct then
      if mk = MKey.gauss then "✓ Best for well-conditioned systems. Simple and fastest."
      else if mk = MKey.pivoting then "✓ RECOMMENDED! Better stability with minimal overhead."
      else if mk = MKey.gaussJordan then
        "✓ Good for finding inverse or RREF. More operations required."
      else ""
    else
      if (metrics mk).converged = some true then
        if mk = MKey.seidel then
          "✓ RECOMMENDED for iterative! Converged in " ++ toString (metrics mk).steps ++
            " steps. Faster convergence."
        else
          "✓ Converged in " ++ toString (metrics mk).steps ++ " steps. Good for sparse systems."
      else "✗ Did not converge. Try direct methods or check diagonal dominance."

/-- The metrics record the comparator builds for each method, given the five
solver results. -/
def mkMetric (k : MKey) (rG rP rGJ rJ rS : SolveResult) : Metric :=
  match k with
  | .gauss =>
    { key := .gauss, name := "Gauss Elimination", mtype := .direct,
      steps := rG.steps.length, solution := rG.solution, converged := none,
      timeComplexity := "O(n³)", efficiency := 1, advantage := none,
      description := some "Basic elimination without pivoting" }
  | .pivoting =>
    { key := .pivoting, name := "Gauss with Pivoting", mtype := .direct,
      steps := rP.steps.length, solution := rP.solution, converged := none,
      timeComplexity := "O(n³)", efficiency := 95 / 100,
      advantage := some "Better numerical stability",
      description := some "Elimination with row pivoting for improved stability" }
  | .gaussJordan =>
    { key := .gaussJordan, name := "Gauss-Jordan", mtype := .direct,
      steps := rGJ.steps.length, solution := rGJ.solution, converged := none,
      timeComplexity := "O(n³)", efficiency := 85 / 100,
      advantage := some "Finds RREF, useful for matrix inverse",
      description := some "Complete elimination to reduced row echelon form" }
  | .jacobi =>
    { key := .jacobi, name := "Jacobi Iteration", mtype := .iterative,
      steps := rJ.steps.length, solution := rJ.solution, converged := rJ.converged,
      timeComplexity := "O(n²) per iteration",
      efficiency := if rJ.converged = some true then 7 / 10 else 0,
      advantage := some "Easy parallelization",
      description := some "Iterative method using Jacobi approach" }
  | .seidel =>
    { key := .seidel, name := "Gauss-Seidel", mtype := .iterative,
      steps := rS.steps.length, solution := rS.solution, converged := rS.converged,
      timeComplexity := "O(n²) per iteration",
      efficiency := if rS.converged = some true then 8 / 10 else 0,
      advantage := some "Faster convergence than Jacobi",
      description := some "Iterative method with improved convergence" }

/-- The best-method scan of `compareAllMethods`: update `(bestScore,
bestMethod)` when a method's score is strictly greater. -/
def bestScan (score : MKey → ℚ) (init : ℚ × Option MKey) (l : List MKey) : ℚ × Option MKey :=
  l.foldl (fun bs m => if score m > bs.1 then (score m, some m) else bs) init

/-- The direct-method score `1000 / (steps + 1)`. -/
def directScore (metrics : MKey → Metric) (m : MKey) : ℚ :=
  1000 / ((metrics m).steps + 1 : ℚ)

/-- The iterative-method score: `500 / (steps + 1)` if converged, else `0`. -/
def iterScore (metrics : MKey → Metric) (m : MKey) : ℚ :=
  if (metrics m).converged = some true then 500 / ((metrics m).steps + 1 : ℚ) else 0

/-- The comparator `compareAllMethods` of `compareAlgorithms.js`: run all five
solvers (the iterative ones with their default `tolerance`/`maxIter`), build
the metrics, scan direct methods then iterative methods for the best score
(initial `bestScore = -1`, `bestMethod = null`), and attach the canned
reason. -/
def compareAllMethods (n : Nat) (matrix : Mat) (vector : Vec) : ComparisonResult :=
  let rGauss := solveGaussElimination n matrix vector
  let rPiv := solveGaussEliminationWithPivoting n matrix vector
  let rGJ := solveGaussJordan n matrix vector
  let rJac := solveJacobi n matrix vector (1 / 1000) 50
  let rSei := solveGaussSeidel n matrix vector (1 / 1000) 50
  let metrics : MKey → Metric := fun k => mkMetric k rGauss rPiv rGJ rJac rSei
  let best0 := bestScan (directScore metrics) (-1, none) [.gauss, .pivoting, .gaussJordan]
  let best1 := bestScan (iterScore metrics) best0 [.jacobi, .seidel]
  { bestMethod := best1.2,
    reason := getReason best1.2 metrics,
    allMetrics := [metrics .gauss, metrics .pivoting, metrics .gaussJordan,
                   metrics .jacobi, metrics .seidel],
    results := [(.gauss, rGauss), (.pivoting, rPiv), (.gaussJordan, rGJ),
                (.jacobi, rJac), (.seidel, rSei)] }

/-- The metrics function `compareAllMethods` builds (each method's record from
its solver result, with the iterative solvers run at their defaults). -/
def cmpMetrics (n : Nat) (A : Mat) (b : Vec) : MKey → Metric := fun k =>
  mkMetric k (solveGaussElimination n A b) (solveGaussEliminationWithPivoting n A b)
    (solveGaussJordan n A b) (solveJacobi n A b (1 / 1000) 50)
    (solveGaussSeidel n A b (1 / 1000) 50)

/-- The five methods with their best-method-selection scores, in the
comparator's fixed iteration order (direct methods before iterative ones). -/
def methodScores (n : Nat) (A : Mat) (b : Vec) : List (MKey × ℚ) :=
  [(MKey.gauss, directScore (cmpMetrics n A b) .gauss),
   (MKey.pivoting, directScore (cmpMetrics n A b) .pivoting),
   (MKey.gaussJordan, directScore (cmpMetrics n A b) .gaussJordan),
   (MKey.jacobi, iterScore (cmpMetrics n A b) .jacobi),
   (MKey.seidel, iterScore (cmpMetrics n A b) .seidel)]

/-- The display score of `getRanking` (`calculateScore` in the source):
`efficiency × 1000/(steps+1)` for direct methods, `efficiency × 500/(steps+1)`
for converged iterative methods, `0` otherwise. -/
def calculateScore (metric : Metric) : ℚ :=
  if metric.mtype = SolveType.direct then
    metric.efficiency * (1000 / (metric.steps + 1 : ℚ))
  else if metric.converged = some true then
    metric.efficiency * (500 / (metric.steps + 1 : ℚ))
  else 0

/-- The ranking `getRanking`: attach a display score to every metric and sort
descending by score (`(a, b) => b.score - a.score` with JS's stable sort,
modelled by a stable insertion sort). -/
def getRanking (metrics : List Metric) : List (Metric × ℚ) :=
  List.insertionSort (fun a b => b.2 ≤ a.2) (metrics.map (fun m => (m, calculateScore m)))

instance rankRelTotal : IsTotal (Metric × ℚ) (fun a b => b.2 ≤ a.2) :=
  ⟨fun a b => le_total b.2 a.2⟩

instance rankRelTrans : IsTrans (Metric × ℚ) (fun a b => b.2 ≤ a.2) :=
  ⟨fun _ _ _ h1 h2 => le_trans h2 h1⟩

/-- The sequence of iterates produced by an iterative solver: the zero initial
guess followed by repeated application of the iteration function. -/
def xSeq (iterF : Nat → Mat → Vec → List ℚ → List ℚ) (n : Nat) (A : Mat) (b : Vec) :
    Nat → List ℚ
  | 0 => List.replicate n 0
  | k + 1 => iterF n A b (xSeq iterF n A b k)

/-- The squared Euclidean error of iteration `k ≥ 1`. -/
def iterErrSq (iterF : Nat → Mat → Vec → List ℚ → List ℚ) (n : Nat) (A : Mat) (b : Vec)
    (k : Nat) : ℚ :=
  errSq n (xSeq iterF n A b k) (xSeq iterF n A b (k - 1))

/-- The `errors` list after `t` iterations. -/
def errList (iterF : Nat → Mat → Vec → List ℚ → List ℚ) (n : Nat) (A : Mat) (b : Vec)
    (t : Nat) : List ℚ :=
  (List.range' 1 t).map (iterErrSq iterF n A b)

/-- The iteration steps recorded after `t` iterations. -/
def stepsUpTo (iterF : Nat → Mat → Vec → List ℚ → List ℚ) (n : Nat) (A : Mat) (b : Vec)
    (t : Nat) : List Step :=
  (List.range' 1 t).map (fun k => iterStep n A b k (xSeq iterF n A b k) (errList iterF n A b k))

/-- The total number of iterations the loop executes when `t` are already done
and `r` remain: it stops at the first iteration whose error passes the
convergence test, else runs all `r`. -/
def runLen (iterF : Nat → Mat → Vec → List ℚ → List ℚ) (n : Nat) (A : Mat) (b : Vec)
    (tol : ℚ) : Nat → Nat → Nat
  | 0, t => t
  | r + 1, t =>
    if convTest (iterErrSq iterF n A b (t + 1)) tol then t + 1
    else runLen iterF n A b tol r (t + 1)

/-- Whether the loop stops with `converged: true` when `t` iterations are
already done and `r` remain. -/
def didConv (iterF : Nat → Mat → Vec → List ℚ → List ℚ) (n : Nat) (A : Mat) (b : Vec)
    (tol : ℚ) : Nat → Nat → Bool
  | 0, _ => false
  | r + 1, t =>
    if convTest (iterErrSq iterF n A b (t + 1)) tol then true
    else didConv iterF n A b tol r (t + 1)

/-- Example fixture: the 3×3 system of the repository's default input. -/
def exampleA : Mat := fun i j => (([[4, -1, 0], [-1, 4, -1], [0, -1, 3]].getD i []).getD j 0 : ℚ)

/-- Example fixture: right-hand side of the 3×3 example system. -/
def exampleB : Vec := fun i => (([1, 2, 0] : List ℚ).getD i 0)

/-- Fixture: a 2×2 system needing a row swap (`A = [[0,1],[1,0]]`). -/
def swapExA : Mat := fun i j => (([[0, 1], [1, 0]].getD i []).getD j 0 : ℚ)

/-- Fixture: right-hand side `[1, 2]` for the swap example. -/
def swapExB : Vec := fun i => (([1, 2] : List ℚ).getD i 0)

/-- Fixture: the singular 2×2 all-ones system, on which Jacobi oscillates
forever (never converging) while every entry stays in `{0, 1}`. -/
def flatExA : Mat := fun _ _ => (1 : ℚ)

/-- Fixture: right-hand side `[1, 1]` for the all-ones system. -/
def flatExB : Vec := fun _ => (1 : ℚ)

/-- Fixture: the 1×1 system `2·x = 4`. -/
def tinyExA : Mat := fun _ _ => (2 : ℚ)

/-- Fixture: right-hand side of the 1×1 system. -/
def tinyExB : Vec := fun _ => (4 : ℚ)

/-- The left-hand side of row `r`: `Σ_{j<n} A[r][j]·x[j]`. -/
def rowSum (n : Nat) (A : Mat) (x : Vec) (r : Nat) : ℚ :=
  ∑ j in Finset.range n, A r j * x j

/-- The vector `x` solves all `n` equations of the system `s = (A, b)`. -/
def Sat (n : Nat) (s : Mat × Vec) (x : Vec) : Prop :=
  ∀ r < n, rowSum n s.1 x r = s.2 r

/-- Elimination invariant: the first `k` columns are triangular (zero strictly
below the diagonal). -/
def TriBelow (n k : Nat) (A : Mat) : Prop :=
  ∀ j < k, ∀ i < n, j < i → A i j = 0

/-- Gauss-Jordan invariant: the first `k` columns are identity columns. -/
def ColsId (n k : Nat) (A : Mat) : Prop :=
  ∀ j < k, ∀ i < n, A i j = if i = j then 1 else 0

/-!  ## Generic evaluation lemmas for the loop embeddings -/

theorem foldl_add_range (g : Nat → ℚ) (n : Nat) (init : ℚ) :
    (List.range n).foldl (fun s j => s + g j) init = init + ∑ j in Finset.range n, g j := by
  induction n with
  | zero => simp
  | succ n ih =>
    rw [List.range_succ, List.foldl_append, ih, Finset.sum_range_succ, List.foldl_cons,
      List.foldl_nil]
    ring

theorem foldl_add_range' (g : Nat → ℚ) :
    ∀ (c a : Nat) (init : ℚ),
      (List.range' a c).foldl (fun s j => s + g j) init =
        init + ∑ j in Finset.Ico a (a + c), g j := by
  intro c
  induction c with
  | zero => simp
  | succ c ih =>
    intro a init
    rw [List.range'_succ, List.foldl_cons, ih]
    rw [Finset.sum_eq_sum_Ico_succ_bot (by omega : a < a + (c + 1))]
    have h : a + 1 + c = a + (c + 1) := by omega
    rw [h]
    ring

theorem getD_set (l : List ℚ) (i : Nat) (v : ℚ) (j : Nat) :
    (l.set i v).getD j 0 = if i = j ∧ i < l.length then v else l.getD j 0 := by
  rcases Nat.lt_or_ge j l.length with hj | hj
  · rw [List.getD_eq_getElem _ _ (by simpa using hj), List.getD_eq_getElem _ _ hj,
      List.getElem_set]
    by_cases hij : i = j
    · subst hij
      simp [hj]
    · simp [hij]
  · rw [List.getD_eq_default _ _ (by simpa using hj), List.getD_eq_default _ _ hj]
    by_cases hc : i = j ∧ i < l.length
    · omega
    · simp [hc]

theorem foldl_set_getD (w : Nat → ℚ) :
    ∀ (l : List Nat) (z : List ℚ) (j : Nat),
      (l.foldl (fun xN i => xN.set i (w i)) z).getD j 0 =
        if j ∈ l ∧ j < z.length then w j else z.getD j 0 := by
  intro l
  induction l with
  | nil => simp
  | cons a t ih =>
    intro z j
    rw [List.foldl_cons, ih, getD_set]
    simp only [List.length_set, List.mem_cons]
    by_cases hjt : j ∈ t ∧ j < z.length
    · simp [hjt, hjt.1, hjt.2]
    · by_cases haj : a = j ∧ a < z.length
      · rcases haj with ⟨rfl, ha⟩
        simp [hjt, ha]
      · simp only [hjt, if_false]
        by_cases hj : (j = a ∨ j ∈ t) ∧ j < z.length
        · rcases hj.1 with rfl | hmem
          · omega
          · exact absurd ⟨hmem, hj.2⟩ hjt
        · simp only [hj, if_false]
          rw [if_neg haj]

theorem errSq_eq (n : Nat) (xN x : List ℚ) :
    errSq n xN x = ∑ i in Finset.range n, (xN.getD i 0 - x.getD i 0) ^ 2 := by
  unfold errSq
  rw [foldl_add_range (fun i => (xN.getD i 0 - x.getD i 0) ^ 2), zero_add]

theorem errSq_nonneg (n : Nat) (xN x : List ℚ) : 0 ≤ errSq n xN x := by
  rw [errSq_eq]
  exact Finset.sum_nonneg fun i _ => sq_nonneg _

/-- The exact convergence test agrees with the source's
`Math.sqrt(errorSum) < tolerance` for every nonnegative `errorSum`. -/
theorem convTest_iff_sqrt (eSq tol : ℚ) :
    convTest eSq tol = true ↔ Real.sqrt (eSq : ℝ) < (tol : ℝ) := by
  unfold convTest
  rw [Bool.and_eq_true, decide_eq_true_iff, decide_eq_true_iff]
  constructor
  · rintro ⟨ht, he⟩
    have ht' : (0 : ℝ) < (tol : ℝ) := by exact_mod_cast ht
    rw [Real.sqrt_lt' ht']
    have : (eSq : ℝ) < (tol : ℝ) * (tol : ℝ) := by exact_mod_cast he
    nlinarith [this]
  · intro hs
    have h0 : (0 : ℝ) ≤ Real.sqrt (eSq : ℝ) := Real.sqrt_nonneg _
    have ht' : (0 : ℝ) < (tol : ℝ) := lt_of_le_of_lt h0 hs
    have ht : 0 < tol := by exact_mod_cast ht'
    refine ⟨ht, ?_⟩
    rw [Real.sqrt_lt' ht'] at hs
    have : (eSq : ℝ) < (tol : ℝ) * (tol : ℝ) := by nlinarith [hs]
    exact_mod_cast this

/-!  ## The per-iteration update formulas (claim C4) -/

theorem jacobiIterate_length (n : Nat) (A : Mat) (b : Vec) (x : List ℚ) :
    (jacobiIterate n A b x).length = n := by
  unfold jacobiIterate
  have : ∀ (l : List Nat) (z : List ℚ),
      (l.foldl (fun xN i => xN.set i (jacobiRow n A b x i)) z).length = z.length := by
    intro l
    induction l with
    | nil => intro z; rfl
    | cons a t ih => intro z; rw [List.foldl_cons, ih, List.length_set]
  rw [this, List.length_replicate]

theorem jacobiIterate_getD (n : Nat) (A : Mat) (b : Vec) (x : List ℚ) (i : Nat) (hi : i < n) :
    (jacobiIterate n A b x).getD i 0 =
      (b i - ∑ j in (Finset.range n).erase i, A i j * x.getD j 0) / A i i := by
  unfold jacobiIterate
  rw [foldl_set_getD (jacobiRow n A b x)]
  rw [if_pos ⟨List.mem_range.2 hi, by simpa using hi⟩]
  unfold jacobiRow
  have hbody : (fun (s : ℚ) (j : Nat) => if i ≠ j then s + A i j * x.getD j 0 else s) =
      fun (s : ℚ) (j : Nat) => s + if i ≠ j then A i j * x.getD j 0 else 0 := by
    funext s j
    split <;> simp
  rw [hbody, foldl_add_range (fun j => if i ≠ j then A i j * x.getD j 0 else 0), zero_add]
  congr 2
  rw [← Finset.sum_filter, Finset.filter_ne]

theorem seidelGo_length (n : Nat) (A : Mat) (b : Vec) (x : List ℚ) (m : Nat) :
    (seidelGo n A b x m).length = x.length := by
  unfold seidelGo
  induction m with
  | zero => rfl
  | succ m ih =>
    rw [List.range_succ, List.foldl_append, List.foldl_cons, List.foldl_nil, List.length_set]
    exact ih

theorem seidelGo_succ (n : Nat) (A : Mat) (b : Vec) (x : List ℚ) (m : Nat) :
    seidelGo n A b x (m + 1) =
      (seidelGo n A b x m).set m (seidelRow n A b x (seidelGo n A b x m) m) := by
  unfold seidelGo
  rw [List.range_succ, List.foldl_append, List.foldl_cons, List.foldl_nil]

theorem seidelGo_getD_of_le (n : Nat) (A : Mat) (b : Vec) (x : List ℚ) :
    ∀ (m p : Nat), m ≤ p → (seidelGo n A b x m).getD p 0 = x.getD p 0 := by
  intro m
  induction m with
  | zero => intro p _; rfl
  | succ m ih =>
    intro p hp
    rw [seidelGo_succ, getD_set, if_neg (by omega), ih p (by omega)]

theorem seidelGo_getD_stable (n : Nat) (A : Mat) (b : Vec) (x : List ℚ) (p : Nat) :
    ∀ (m : Nat), p < m → (seidelGo n A b x m).getD p 0 = (seidelGo n A b x (p + 1)).getD p 0 := by
  intro m
  induction m with
  | zero => intro h; omega
  | succ m ih =>
    intro hp
    rcases Nat.lt_or_ge p m with hm | hm
    · rw [seidelGo_succ, getD_set, if_neg (by omega), ih hm]
    · have : p = m := by omega
      subst this
      rfl

theorem seidelIterate_getD (n : Nat) (A : Mat) (b : Vec) (x : List ℚ) (i : Nat) (hi : i < n)
    (hx : x.length = n) :
    (seidelIterate n A b x).getD i 0 =
      (b i - ∑ j in Finset.range i, A i j * (seidelIterate n A b x).getD j 0
           - ∑ j in Finset.Ico (i + 1) n, A i j * x.getD j 0) / A i i := by
  have hstable : ∀ j, j < i → (seidelIterate n A b x).getD j 0 =
      (seidelGo n A b x i).getD j 0 := by
    intro j hj
    unfold seidelIterate
    rw [seidelGo_getD_stable n A b x j n (by omega), seidelGo_getD_stable n A b x j i hj]
  have hmain : (seidelIterate n A b x).getD i 0 =
      seidelRow n A b x (seidelGo n A b x i) i := by
    unfold seidelIterate
    rw [seidelGo_getD_stable n A b x i n hi, seidelGo_succ, getD_set,
      if_pos ⟨rfl, by rw [seidelGo_length, hx]; exact hi⟩]
  rw [hmain]
  unfold seidelRow
  have hbody : (fun (s : ℚ) (j : Nat) =>
        if j ≠ i then
          if j < i then s + A i j * (seidelGo n A b x i).getD j 0 else s + A i j * x.getD j 0
        else s) =
      fun (s : ℚ) (j : Nat) =>
        s + if j ≠ i then
              (if j < i then A i j * (seidelGo n A b x i).getD j 0 else A i j * x.getD j 0)
            else 0 := by
    funext s j
    split
    · split <;> ring
    · simp
  rw [hbody, foldl_add_range, zero_add]
  have hsplit : Finset.range n = Finset.Ico 0 i ∪ Finset.Ico i n := by
    rw [Finset.range_eq_Ico, ← Finset.Ico_union_Ico_eq_Ico (Nat.zero_le i) (le_of_lt hi)]
  have Hsum : (∑ j in Finset.range n,
        if j ≠ i then
          (if j < i then A i j * (seidelGo n A b x i).getD j 0 else A i j * x.getD j 0)
        else 0) =
      (∑ j in Finset.range i, A i j * (seidelIterate n A b x).getD j 0) +
        ∑ j in Finset.Ico (i + 1) n, A i j * x.getD j 0 := by
    rw [hsplit, Finset.sum_union (Finset.Ico_disjoint_Ico_consecutive 0 i n)]
    congr 1
    · rw [Finset.range_eq_Ico]
      apply Finset.sum_congr rfl
      intro j hj
      have hji : j < i := (Finset.mem_Ico.1 hj).2
      rw [if_pos (by omega), if_pos hji, hstable j hji]
    · rw [Finset.sum_eq_sum_Ico_succ_bot (by omega : i < n), if_neg (by simp), zero_add]
      apply Finset.sum_congr rfl
      intro j hj
      have hji : i + 1 ≤ j := (Finset.mem_Ico.1 hj).1
      rw [if_pos (by omega), if_neg (by omega)]
  rw [Hsum]
  ring

theorem seidelIterate_length (n : Nat) (A : Mat) (b : Vec) (x : List ℚ) :
    (seidelIterate n A b x).length = x.length :=
  seidelGo_length n A b x n

/-!  ## Characterisation of the iterative solver loop (claims C3, C9) -/

theorem errList_zero (iterF : Nat → Mat → Vec → List ℚ → List ℚ) (n : Nat) (A : Mat) (b : Vec) :
    errList iterF n A b 0 = [] := rfl

theorem errList_succ (iterF : Nat → Mat → Vec → List ℚ → List ℚ) (n : Nat) (A : Mat) (b : Vec)
    (t : Nat) :
    errList iterF n A b (t + 1) = errList iterF n A b t ++ [iterErrSq iterF n A b (t + 1)] := by
  unfold errList
  rw [List.range'_concat, List.map_append]
  simp [Nat.add_comm]

theorem errList_length (iterF : Nat → Mat → Vec → List ℚ → List ℚ) (n : Nat) (A : Mat) (b : Vec)
    (t : Nat) : (errList iterF n A b t).length = t := by
  unfold errList
  rw [List.length_map, List.length_range']

theorem stepsUpTo_succ (iterF : Nat → Mat → Vec → List ℚ → List ℚ) (n : Nat) (A : Mat) (b : Vec)
    (t : Nat) :
    stepsUpTo iterF n A b (t + 1) =
      stepsUpTo iterF n A b t ++
        [iterStep n A b (t + 1) (xSeq iterF n A b (t + 1)) (errList iterF n A b (t + 1))] := by
  unfold stepsUpTo
  rw [List.range'_concat, List.map_append]
  simp [Nat.add_comm]

theorem stepsUpTo_length (iterF : Nat → Mat → Vec → List ℚ → List ℚ) (n : Nat) (A : Mat)
    (b : Vec) (t : Nat) : (stepsUpTo iterF n A b t).length = t := by
  unfold stepsUpTo
  rw [List.length_map, List.length_range']

theorem runLen_zero (iterF : Nat → Mat → Vec → List ℚ → List ℚ) (n : Nat) (A : Mat) (b : Vec)
    (tol : ℚ) (t : Nat) : runLen iterF n A b tol 0 t = t := rfl

theorem runLen_succ (iterF : Nat → Mat → Vec → List ℚ → List ℚ) (n : Nat) (A : Mat) (b : Vec)
    (tol : ℚ) (r t : Nat) :
    runLen iterF n A b tol (r + 1) t =
      if convTest (iterErrSq iterF n A b (t + 1)) tol then t + 1
      else runLen iterF n A b tol r (t + 1) := by
  rw [runLen]

theorem didConv_zero (iterF : Nat → Mat → Vec → List ℚ → List ℚ) (n : Nat) (A : Mat) (b : Vec)
    (tol : ℚ) (t : Nat) : didConv iterF n A b tol 0 t = false := rfl

theorem didConv_succ (iterF : Nat → Mat → Vec → List ℚ → List ℚ) (n : Nat) (A : Mat) (b : Vec)
    (tol : ℚ) (r t : Nat) :
    didConv iterF n A b tol (r + 1) t =
      if convTest (iterErrSq iterF n A b (t + 1)) tol then true
      else didConv iterF n A b tol r (t + 1) := by
  rw [didConv]

/-- Master run lemma: starting the loop with `t` iterations already executed,
it finishes in the state described by `runLen`/`didConv`. -/
theorem iterLoop_run (iterF : Nat → Mat → Vec → List ℚ → List ℚ) (n : Nat) (A : Mat) (b : Vec)
    (tol : ℚ) :
    ∀ (r t : Nat),
      iterLoop iterF n A b tol r t
          ⟨xSeq iterF n A b t, errList iterF n A b t,
            initialStep n A b (List.replicate n 0) :: stepsUpTo iterF n A b t⟩ =
        { steps := initialStep n A b (List.replicate n 0) ::
            stepsUpTo iterF n A b (runLen iterF n A b tol r t),
          solution := xSeq iterF n A b (runLen iterF n A b tol r t),
          stype := .iterative,
          converged := some (didConv iterF n A b tol r t) } := by
  intro r
  induction r with
  | zero => intro t; rfl
  | succ r ih =>
    intro t
    rw [iterLoop]
    have hx : iterF n A b (xSeq iterF n A b t) = xSeq iterF n A b (t + 1) := rfl
    have he : errSq n (xSeq iterF n A b (t + 1)) (xSeq iterF n A b t) =
        iterErrSq iterF n A b (t + 1) := by
      unfold iterErrSq
      simp
    simp only [hx, he, ← errList_succ]
    by_cases hc : convTest (iterErrSq iterF n A b (t + 1)) tol
    · rw [if_pos hc]
      have h1 : runLen iterF n A b tol (r + 1) t = t + 1 := by
        rw [runLen_succ, if_pos hc]
      have h2 : didConv iterF n A b tol (r + 1) t = true := by
        rw [didConv_succ, if_pos hc]
      rw [h1, h2, stepsUpTo_succ]
      simp
    · rw [if_neg hc]
      have h1 : runLen iterF n A b tol (r + 1) t = runLen iterF n A b tol r (t + 1) := by
        rw [runLen_succ, if_neg hc]
      have h2 : didConv iterF n A b tol (r + 1) t = didConv iterF n A b tol r (t + 1) := by
        rw [didConv_succ, if_neg hc]
      rw [h1, h2]
      have := ih (t + 1)
      rw [← this]
      congr 1
      rw [stepsUpTo_succ]
      simp [List.cons_append]

theorem runLen_bounds (iterF : Nat → Mat → Vec → List ℚ → List ℚ) (n : Nat) (A : Mat) (b : Vec)
    (tol : ℚ) :
    ∀ (r t : Nat), t ≤ runLen iterF n A b tol r t ∧ runLen iterF n A b tol r t ≤ t + r := by
  intro r
  induction r with
  | zero => intro t; rw [runLen_zero]; omega
  | succ r ih =>
    intro t
    rw [runLen_succ]
    split
    · omega
    · have := ih (t + 1)
      omega

theorem didConv_iff (iterF : Nat → Mat → Vec → List ℚ → List ℚ) (n : Nat) (A : Mat) (b : Vec)
    (tol : ℚ) :
    ∀ (r t : Nat),
      didConv iterF n A b tol r t = true ↔
        ∃ k, t < k ∧ k ≤ t + r ∧ convTest (iterErrSq iterF n A b k) tol = true := by
  intro r
  induction r with
  | zero =>
    intro t
    rw [didConv_zero]
    constructor
    · intro h
      cases h
    · rintro ⟨k, h1, h2, _⟩
      omega
  | succ r ih =>
    intro t
    rw [didConv_succ]
    split
    · rename_i hc
      simp only [true_iff]
      exact ⟨t + 1, by omega, by omega, hc⟩
    · rename_i hc
      rw [ih (t + 1)]
      constructor
      · rintro ⟨k, h1, h2, h3⟩
        exact ⟨k, by omega, by omega, h3⟩
      · rintro ⟨k, h1, h2, h3⟩
        refine ⟨k, ?_, by omega, h3⟩
        rcases Nat.lt_or_ge (t + 1) k with h | h
        · exact h
        · have : k = t + 1 := by omega
          subst this
          exact absurd h3 (by simpa using hc)

theorem runLen_conv (iterF : Nat → Mat → Vec → List ℚ → List ℚ) (n : Nat) (A : Mat) (b : Vec)
    (tol : ℚ) :
    ∀ (r t : Nat), didConv iterF n A b tol r t = true →
      t < runLen iterF n A b tol r t ∧
        convTest (iterErrSq iterF n A b (runLen iterF n A b tol r t)) tol = true := by
  intro r
  induction r with
  | zero => intro t h; rw [didConv_zero] at h; cases h
  | succ r ih =>
    intro t h
    rw [runLen_succ]
    rw [didConv_succ] at h
    by_cases hc : convTest (iterErrSq iterF n A b (t + 1)) tol
    · rw [if_pos hc]
      exact ⟨by omega, hc⟩
    · rw [if_neg hc]
      rw [if_neg hc] at h
      have := ih (t + 1) h
      exact ⟨by omega, this.2⟩

theorem runLen_min (iterF : Nat → Mat → Vec → List ℚ → List ℚ) (n : Nat) (A : Mat) (b : Vec)
    (tol : ℚ) :
    ∀ (r t k : Nat), t < k → k < runLen iterF n A b tol r t →
      convTest (iterErrSq iterF n A b k) tol = false := by
  intro r
  induction r with
  | zero => intro t k h1 h2; rw [runLen_zero] at h2; omega
  | succ r ih =>
    intro t k h1 h2
    rw [runLen_succ] at h2
    by_cases hc : convTest (iterErrSq iterF n A b (t + 1)) tol
    · rw [if_pos hc] at h2
      omega
    · rw [if_neg hc] at h2
      rcases Nat.lt_or_ge (t + 1) k with h | h
      · exact ih (t + 1) k h h2
      · have : k = t + 1 := by omega
        subst this
        simpa using hc

theorem runLen_not_conv (iterF : Nat → Mat → Vec → List ℚ → List ℚ) (n : Nat) (A : Mat)
    (b : Vec) (tol : ℚ) :
    ∀ (r t : Nat), didConv iterF n A b tol r t = false →
      runLen iterF n A b tol r t = t + r := by
  intro r
  induction r with
  | zero => intro t _; rfl
  | succ r ih =>
    intro t h
    rw [runLen_succ]
    rw [didConv_succ] at h
    by_cases hc : convTest (iterErrSq iterF n A b (t + 1)) tol
    · rw [if_pos hc] at h
      cases h
    · rw [if_neg hc] at h
      rw [if_neg hc, ih (t + 1) h]
      omega

theorem solveJacobi_eq (n : Nat) (A : Mat) (b : Vec) (tol : ℚ) (m : Nat) :
    solveJacobi n A b tol m =
      { steps := initialStep n A b (List.replicate n 0) ::
          stepsUpTo jacobiIterate n A b (runLen jacobiIterate n A b tol m 0),
        solution := xSeq jacobiIterate n A b (runLen jacobiIterate n A b tol m 0),
        stype := .iterative,
        converged := some (didConv jacobiIterate n A b tol m 0) } :=
  iterLoop_run jacobiIterate n A b tol m 0

theorem solveGaussSeidel_eq (n : Nat) (A : Mat) (b : Vec) (tol : ℚ) (m : Nat) :
    solveGaussSeidel n A b tol m =
      { steps := initialStep n A b (List.replicate n 0) ::
          stepsUpTo seidelIterate n A b (runLen seidelIterate n A b tol m 0),
        solution := xSeq seidelIterate n A b (runLen seidelIterate n A b tol m 0),
        stype := .iterative,
        converged := some (didConv seidelIterate n A b tol m 0) } :=
  iterLoop_run seidelIterate n A b tol m 0

theorem xSeq_jacobi_length (n : Nat) (A : Mat) (b : Vec) :
    ∀ k, (xSeq jacobiIterate n A b k).length = n := by
  intro k
  cases k with
  | zero => simp [xSeq]
  | succ k => rw [xSeq]; exact jacobiIterate_length n A b _

theorem xSeq_seidel_length (n : Nat) (A : Mat) (b : Vec) :
    ∀ k, (xSeq seidelIterate n A b k).length = n := by
  intro k
  induction k with
  | zero => simp [xSeq]
  | succ k ih => rw [xSeq, seidelIterate_length]; exact ih

/-- Everything claim C3 asserts, proved for an abstract iteration function from
the run characterisation. -/
theorem iterResult_spec (iterF : Nat → Mat → Vec → List ℚ → List ℚ) (n : Nat) (A : Mat)
    (b : Vec) (tol : ℚ) (m : Nat) (R : SolveResult)
    (hR : R =
      { steps := initialStep n A b (List.replicate n 0) ::
          stepsUpTo iterF n A b (runLen iterF n A b tol m 0),
        solution := xSeq iterF n A b (runLen iterF n A b tol m 0),
        stype := SolveType.iterative,
        converged := some (didConv iterF n A b tol m 0) })
    (hxlen : ∀ k, (xSeq iterF n A b k).length = n) :
    R.steps.length = (R.steps.length - 1) + 1 ∧
    R.steps.length - 1 ≤ m ∧
    R.solution = xSeq iterF n A b (R.steps.length - 1) ∧
    R.solution.length = n ∧
    (R.converged = some true ∨ R.converged = some false) ∧
    (R.converged = some true ↔
      ∃ k, 1 ≤ k ∧ k ≤ m ∧ Real.sqrt ((iterErrSq iterF n A b k : ℚ) : ℝ) < (tol : ℝ)) ∧
    (R.converged = some true →
      1 ≤ R.steps.length - 1 ∧
        Real.sqrt ((iterErrSq iterF n A b (R.steps.length - 1) : ℚ) : ℝ) < (tol : ℝ) ∧
        ∀ k, 1 ≤ k → k < R.steps.length - 1 →
          ¬(Real.sqrt ((iterErrSq iterF n A b k : ℚ) : ℝ) < (tol : ℝ))) ∧
    (R.converged = some false →
      R.steps.length - 1 = m ∧
        ∀ k, 1 ≤ k → k ≤ m → ¬(Real.sqrt ((iterErrSq iterF n A b k : ℚ) : ℝ) < (tol : ℝ))) := by
  have hsteps : R.steps.length = runLen iterF n A b tol m 0 + 1 := by
    rw [hR]
    simp [stepsUpTo_length]
  have hIT : R.steps.length - 1 = runLen iterF n A b tol m 0 := by omega
  have hconv : R.converged = some (didConv iterF n A b tol m 0) := by rw [hR]
  have hsol : R.solution = xSeq iterF n A b (runLen iterF n A b tol m 0) := by rw [hR]
  have hb := runLen_bounds iterF n A b tol m 0
  have hbr : ∀ k, convTest (iterErrSq iterF n A b k) tol = true ↔
      Real.sqrt ((iterErrSq iterF n A b k : ℚ) : ℝ) < (tol : ℝ) := fun k =>
    convTest_iff_sqrt _ _
  refine ⟨by omega, by omega, ?_, ?_, ?_, ?_, ?_, ?_⟩
  · rw [hIT, hsol]
  · rw [hsol]
    exact hxlen _
  · rw [hconv]
    cases didConv iterF n A b tol m 0 with
    | true => exact Or.inl rfl
    | false => exact Or.inr rfl
  · rw [hconv]
    constructor
    · intro h
      have hd : didConv iterF n A b tol m 0 = true := by simpa using h
      rcases (didConv_iff iterF n A b tol m 0).1 hd with ⟨k, hk1, hk2, hk3⟩
      exact ⟨k, by omega, by omega, (hbr k).1 hk3⟩
    · rintro ⟨k, hk1, hk2, hk3⟩
      have hd : didConv iterF n A b tol m 0 = true :=
        (didConv_iff iterF n A b tol m 0).2 ⟨k, by omega, by omega, (hbr k).2 hk3⟩
      rw [hd]
  · intro h
    have hd : didConv iterF n A b tol m 0 = true := by
      rw [hconv] at h
      simpa using h
    have h2 := runLen_conv iterF n A b tol m 0 hd
    refine ⟨by omega, ?_, ?_⟩
    · rw [hIT]
      exact (hbr _).1 h2.2
    · intro k hk1 hklt hs
      rw [hIT] at hklt
      have hmin := runLen_min iterF n A b tol m 0 k (by omega) hklt
      have : convTest (iterErrSq iterF n A b k) tol = true := (hbr k).2 hs
      rw [this] at hmin
      cases hmin
  · intro h
    have hd : didConv iterF n A b tol m 0 = false := by
      rw [hconv] at h
      simpa using h
    have hrl := runLen_not_conv iterF n A b tol m 0 hd
    refine ⟨by omega, ?_⟩
    intro k hk1 hk2 hs
    have hd' : didConv iterF n A b tol m 0 = true :=
      (didConv_iff iterF n A b tol m 0).2 ⟨k, by omega, by omega, (hbr k).2 hs⟩
    rw [hd'] at hd
    cases hd

/-- Everything claim C9 asserts (error-history lengths per recorded step),
proved for an abstract iteration function. -/
theorem iterResult_steps_spec (iterF : Nat → Mat → Vec → List ℚ → List ℚ) (n : Nat) (A : Mat)
    (b : Vec) (tol : ℚ) (m : Nat) (R : SolveResult)
    (hR : R =
      { steps := initialStep n A b (List.replicate n 0) ::
          stepsUpTo iterF n A b (runLen iterF n A b tol m 0),
        solution := xSeq iterF n A b (runLen iterF n A b tol m 0),
        stype := SolveType.iterative,
        converged := some (didConv iterF n A b tol m 0) }) :
    (∀ i, i < R.steps.length →
      (R.steps[i]?).map (fun st => st.errorSqHistory.map List.length) =
        some (if i = 0 then none else some i)) ∧
    R.steps.getLast?.map (fun st => (st.errorSqHistory.getD []).length) =
      some (R.steps.length - 1) := by
  have hsteps : R.steps = initialStep n A b (List.replicate n 0) ::
      stepsUpTo iterF n A b (runLen iterF n A b tol m 0) := by rw [hR]
  have hlen : R.steps.length = runLen iterF n A b tol m 0 + 1 := by
    rw [hsteps]
    simp [stepsUpTo_length]
  constructor
  · intro i hi
    rw [hsteps]
    cases i with
    | zero => simp [initialStep]
    | succ j =>
      have hj : j < runLen iterF n A b tol m 0 := by omega
      rw [List.getElem?_cons_succ]
      have hjlen : j < (stepsUpTo iterF n A b (runLen iterF n A b tol m 0)).length := by
        rw [stepsUpTo_length]
        exact hj
      rw [List.getElem?_eq_getElem hjlen]
      unfold stepsUpTo
      rw [List.getElem_map, List.getElem_range']
      simp [iterStep, errList_length, Nat.add_comm]
  · rw [hsteps]
    rcases Nat.eq_zero_or_pos (runLen iterF n A b tol m 0) with h0 | hpos
    · rw [h0]
      simp [stepsUpTo, initialStep, hlen, h0]
    · obtain ⟨L, hL⟩ : ∃ L, runLen iterF n A b tol m 0 = L + 1 :=
        ⟨runLen iterF n A b tol m 0 - 1, by omega⟩
      rw [hL, stepsUpTo_succ, ← List.cons_append, List.getLast?_concat]
      simp [iterStep, errList_length, hlen, hL, stepsUpTo_length]

/-- Claim C3: for every iterative solve (`solveJacobi`, `solveGaussSeidel`)
with tolerance `t` and `maxIter = m`, the solver returns `converged: true` iff
some iteration `k ≤ m` has Euclidean-norm error `< t`, stopping at the first
such iteration; otherwise it runs exactly `m` iterations and returns
`converged: false`; in both cases it returns a solution vector of length `n`
and a non-empty steps list (`maxIter = 0` gives `converged: false` with
`steps.length ≥ 1`).  The number of executed iterations is `steps.length - 1`,
and iteration `k`'s Euclidean-norm error is `√(iterErrSq … k)`. -/
theorem claim_C3 (n : Nat) (A : Mat) (b : Vec) (tol : ℚ) (m : Nat) :
    ((solveJacobi n A b tol m).steps.length =
        ((solveJacobi n A b tol m).steps.length - 1) + 1 ∧
      (solveJacobi n A b tol m).steps.length - 1 ≤ m ∧
      (solveJacobi n A b tol m).solution =
        xSeq jacobiIterate n A b ((solveJacobi n A b tol m).steps.length - 1) ∧
      (solveJacobi n A b tol m).solution.length = n ∧
      ((solveJacobi n A b tol m).converged = some true ∨
        (solveJacobi n A b tol m).converged = some false) ∧
      ((solveJacobi n A b tol m).converged = some true ↔
        ∃ k, 1 ≤ k ∧ k ≤ m ∧
          Real.sqrt ((iterErrSq jacobiIterate n A b k : ℚ) : ℝ) < (tol : ℝ)) ∧
      ((solveJacobi n A b tol m).converged = some true →
        1 ≤ (solveJacobi n A b tol m).steps.length - 1 ∧
          Real.sqrt ((iterErrSq jacobiIterate n A b
              ((solveJacobi n A b tol m).steps.length - 1) : ℚ) : ℝ) < (tol : ℝ) ∧
          ∀ k, 1 ≤ k → k < (solveJacobi n A b tol m).steps.length - 1 →
            ¬(Real.sqrt ((iterErrSq jacobiIterate n A b k : ℚ) : ℝ) < (tol : ℝ))) ∧
      ((solveJacobi n A b tol m).converged = some false →
        (solveJacobi n A b tol m).steps.length - 1 = m ∧
          ∀ k, 1 ≤ k → k ≤ m →
            ¬(Real.sqrt ((iterErrSq jacobiIterate n A b k : ℚ) : ℝ) < (tol : ℝ)))) ∧
    ((solveGaussSeidel n A b tol m).steps.length =
        ((solveGaussSeidel n A b tol m).steps.length - 1) + 1 ∧
      (solveGaussSeidel n A b tol m).steps.length - 1 ≤ m ∧
      (solveGaussSeidel n A b tol m).solution =
        xSeq seidelIterate n A b ((solveGaussSeidel n A b tol m).steps.length - 1) ∧
      (solveGaussSeidel n A b tol m).solution.length = n ∧
      ((solveGaussSeidel n A b tol m).converged = some true ∨
        (solveGaussSeidel n A b tol m).converged = some false) ∧
      ((solveGaussSeidel n A b tol m).converged = some true ↔
        ∃ k, 1 ≤ k ∧ k ≤ m ∧
          Real.sqrt ((iterErrSq seidelIterate n A b k : ℚ) : ℝ) < (tol : ℝ)) ∧
      ((solveGaussSeidel n A b tol m).converged = some true →
        1 ≤ (solveGaussSeidel n A b tol m).steps.length - 1 ∧
          Real.sqrt ((iterErrSq seidelIterate n A b
              ((solveGaussSeidel n A b tol m).steps.length - 1) : ℚ) : ℝ) < (tol : ℝ) ∧
          ∀ k, 1 ≤ k → k < (solveGaussSeidel n A b tol m).steps.length - 1 →
            ¬(Real.sqrt ((iterErrSq seidelIterate n A b k : ℚ) : ℝ) < (tol : ℝ))) ∧
      ((solveGaussSeidel n A b tol m).converged = some false →
        (solveGaussSeidel n A b tol m).steps.length - 1 = m ∧
          ∀ k, 1 ≤ k → k ≤ m →
            ¬(Real.sqrt ((iterErrSq seidelIterate n A b k : ℚ) : ℝ) < (tol : ℝ)))) :=
  ⟨iterResult_spec jacobiIterate n A b tol m _ (solveJacobi_eq n A b tol m)
      (xSeq_jacobi_length n A b),
    iterResult_spec seidelIterate n A b tol m _ (solveGaussSeidel_eq n A b tol m)
      (xSeq_seidel_length n A b)⟩

/-- Witness for claim C3 at the 1×1 system `2·x = 4` with `maxIter = 2`:
Jacobi converges there at iteration 2, and the theorem then yields the
first-stop facts. -/
theorem claim_C3_witness :
    (solveJacobi 1 tinyExA tinyExB (1 / 1000) 2).converged = some true ∧
    1 ≤ (solveJacobi 1 tinyExA tinyExB (1 / 1000) 2).steps.length - 1 ∧
    Real.sqrt ((iterErrSq jacobiIterate 1 tinyExA tinyExB
        ((solveJacobi 1 tinyExA tinyExB (1 / 1000) 2).steps.length - 1) : ℚ) : ℝ) <
      ((1 / 1000 : ℚ) : ℝ) := by
  have hconv : (solveJacobi 1 tinyExA tinyExB (1 / 1000) 2).converged = some true := by
    norm_num [solveJacobi, iterLoop, jacobiIterate, jacobiRow, errSq, convTest, iterStep,
      initialStep, tinyExA, tinyExB, List.range_succ, vecList, matList]
  have h := (claim_C3 1 tinyExA tinyExB (1 / 1000) 2).1.2.2.2.2.2.2.1 hconv
  exact ⟨hconv, h.1, h.2.1⟩

/-- Claim C9: in both iterative solvers, the step recorded after iteration `k`
carries an error history of length exactly `k` (the initial-guess step, index
0, carries none), and the last recorded step's error history has length equal
to the number of iterations executed (`steps.length - 1`). -/
theorem claim_C9 (n : Nat) (A : Mat) (b : Vec) (tol : ℚ) (m : Nat) :
    ((∀ i, i < (solveJacobi n A b tol m).steps.length →
        ((solveJacobi n A b tol m).steps[i]?).map
            (fun st => st.errorSqHistory.map List.length) =
          some (if i = 0 then none else some i)) ∧
      (solveJacobi n A b tol m).steps.getLast?.map
          (fun st => (st.errorSqHistory.getD []).length) =
        some ((solveJacobi n A b tol m).steps.length - 1)) ∧
    ((∀ i, i < (solveGaussSeidel n A b tol m).steps.length →
        ((solveGaussSeidel n A b tol m).steps[i]?).map
            (fun st => st.errorSqHistory.map List.length) =
          some (if i = 0 then none else some i)) ∧
      (solveGaussSeidel n A b tol m).steps.getLast?.map
          (fun st => (st.errorSqHistory.getD []).length) =
        some ((solveGaussSeidel n A b tol m).steps.length - 1)) :=
  ⟨iterResult_steps_spec jacobiIterate n A b tol m _ (solveJacobi_eq n A b tol m),
    iterResult_steps_spec seidelIterate n A b tol m _ (solveGaussSeidel_eq n A b tol m)⟩

/-- Witness for claim C9: the 1×1 Jacobi run has 3 recorded steps, and the
step at index 1 (recorded after iteration 1) carries an error history of
length 1. -/
theorem claim_C9_witness :
    1 < (solveJacobi 1 tinyExA tinyExB (1 / 1000) 2).steps.length ∧
    ((solveJacobi 1 tinyExA tinyExB (1 / 1000) 2).steps[1]?).map
        (fun st => st.errorSqHistory.map List.length) =
      some (some 1) := by
  have hlen : (solveJacobi 1 tinyExA tinyExB (1 / 1000) 2).steps.length = 3 := by
    norm_num [solveJacobi, iterLoop, jacobiIterate, jacobiRow, errSq, convTest, iterStep,
      initialStep, tinyExA, tinyExB, List.range_succ, vecList, matList]
  have h := (claim_C9 1 tinyExA tinyExB (1 / 1000) 2).1.1 1 (by omega)
  refine ⟨by omega, ?_⟩
  simpa using h

/-- Claim C4: in every iteration, Jacobi computes
`xNew[i] = (b[i] - Σ_{j ≠ i} A[i][j]·x[j]) / A[i][i]` from the previous
iterate `x` alone (its `xNew` is a fresh length-`n` zero array), while
Gauss-Seidel starts `xNew` as a copy of `x` (its length is `x`'s) and computes
component `i` from the already-updated `xNew[j]` for `j < i` and the old
`x[j]` for `j > i`. -/
theorem claim_C4 (n : Nat) (A : Mat) (b : Vec) (x : List ℚ) (i : Nat) (hi : i < n)
    (hx : x.length = n) :
    (jacobiIterate n A b x).getD i 0 =
      (b i - ∑ j in (Finset.range n).erase i, A i j * x.getD j 0) / A i i ∧
    (jacobiIterate n A b x).length = n ∧
    (seidelIterate n A b x).getD i 0 =
      (b i - ∑ j in Finset.range i, A i j * (seidelIterate n A b x).getD j 0
           - ∑ j in Finset.Ico (i + 1) n, A i j * x.getD j 0) / A i i ∧
    (seidelIterate n A b x).length = x.length :=
  ⟨jacobiIterate_getD n A b x i hi, jacobiIterate_length n A b x,
    seidelIterate_getD n A b x i hi hx, seidelIterate_length n A b x⟩

/-- Witness for claim C4 at the all-ones 2×2 system with iterate `[1, 1]`,
component `i = 0`. -/
theorem claim_C4_witness :
    ((0 : Nat) < 2 ∧ ([1, 1] : List ℚ).length = 2) ∧
    ((jacobiIterate 2 flatExA flatExB [1, 1]).getD 0 0 =
        (flatExB 0 - ∑ j in (Finset.range 2).erase 0,
            flatExA 0 j * ([1, 1] : List ℚ).getD j 0) / flatExA 0 0 ∧
      (jacobiIterate 2 flatExA flatExB [1, 1]).length = 2 ∧
      (seidelIterate 2 flatExA flatExB [1, 1]).getD 0 0 =
        (flatExB 0 - ∑ j in Finset.range 0,
              flatExA 0 j * (seidelIterate 2 flatExA flatExB [1, 1]).getD j 0
            - ∑ j in Finset.Ico (0 + 1) 2, flatExA 0 j * ([1, 1] : List ℚ).getD j 0) /
          flatExA 0 0 ∧
      (seidelIterate 2 flatExA flatExB [1, 1]).length = ([1, 1] : List ℚ).length) :=
  ⟨⟨by decide, rfl⟩, claim_C4 2 flatExA flatExB [1, 1] 0 (by decide) rfl⟩

/-!  ## Snapshot allocation (claim C2) -/

theorem addrInv_pushStep (n : Nat) (s : DState) (k : StepKind) (h : Highlights)
    (hs : AddrInv s) : AddrInv (pushStep n s k h) := by
  obtain ⟨h1, h2⟩ := hs
  constructor
  · simp only [pushStep, List.length_append, List.length_cons, List.length_nil]
    omega
  · intro i hi
    simp only [pushStep, List.length_append, List.length_cons, List.length_nil] at hi
    simp only [pushStep]
    rcases Nat.lt_or_ge i s.steps.length with hlt | hge
    · rw [List.getElem_append_left hlt]
      have := h2 i hlt
      simpa using this
    · have hieq : i = s.steps.length := by omega
      subst hieq
      rw [List.getElem_concat_length]
      · simp [mkStep, h1]
      · rfl

theorem addrInv_foldl {α : Type} (f : DState → α → DState)
    (hf : ∀ s x, AddrInv s → AddrInv (f s x)) :
    ∀ (l : List α) (s : DState), AddrInv s → AddrInv (l.foldl f s) := by
  intro l
  induction l with
  | nil => intro s hs; exact hs
  | cons a t ih => intro s hs; exact ih _ (hf s a hs)

theorem addrInv_setAB (s : DState) (A' : Mat) (b' : Vec) (hs : AddrInv s) :
    AddrInv { s with A := A', b := b' } := hs

theorem addrInv_geElimRow (n k : Nat) (s : DState) (i : Nat) (hs : AddrInv s) :
    AddrInv (geElimRow n k s i) :=
  addrInv_setAB _ _ _ (addrInv_pushStep n s _ _ hs)

theorem addrInv_geStage (n : Nat) (s : DState) (k : Nat) (hs : AddrInv s) :
    AddrInv (geStage n s k) :=
  addrInv_foldl _ (fun s' i hs' => addrInv_geElimRow n k s' i hs') _ _
    (addrInv_pushStep n s _ _ hs)

theorem addrInv_base (A0 : Mat) (b0 : Vec) : AddrInv ⟨A0, b0, [], 4⟩ := by
  constructor
  · rfl
  · intro i hi
    simp at hi

theorem addrInv_geState (n : Nat) (A0 : Mat) (b0 : Vec) (k : Nat) :
    AddrInv (geState n A0 b0 k) :=
  addrInv_foldl _ (fun s' k' hs' => addrInv_geStage n s' k' hs') _ _
    (addrInv_pushStep n _ _ _ (addrInv_base A0 b0))

theorem addrInv_pivSwap (n k : Nat) (s : DState) (hs : AddrInv s) :
    AddrInv (pivSwap n k s) := by
  unfold pivSwap
  split
  · exact addrInv_pushStep n _ _ _ (addrInv_setAB _ _ _ hs)
  · exact hs

theorem addrInv_pivStage (n : Nat) (s : DState) (k : Nat) (hs : AddrInv s) :
    AddrInv (pivStage n s k) :=
  addrInv_foldl _ (fun s' i hs' => addrInv_geElimRow n k s' i hs') _ _
    (addrInv_pushStep n _ _ _ (addrInv_pivSwap n k s hs))

theorem addrInv_pivState (n : Nat) (A0 : Mat) (b0 : Vec) (k : Nat) :
    AddrInv (pivState n A0 b0 k) :=
  addrInv_foldl _ (fun s' k' hs' => addrInv_pivStage n s' k' hs') _ _
    (addrInv_pushStep n _ _ _ (addrInv_base A0 b0))

theorem addrInv_gjElimRow (n k : Nat) (s : DState) (i : Nat) (hs : AddrInv s) :
    AddrInv (gjElimRow n k s i) := by
  unfold gjElimRow
  split
  · exact addrInv_setAB _ _ _ (addrInv_pushStep n s _ _ hs)
  · exact hs

theorem addrInv_gjStage (n : Nat) (s : DState) (k : Nat) (hs : AddrInv s) :
    AddrInv (gjStage n s k) :=
  addrInv_foldl _ (fun s' i hs' => addrInv_gjElimRow n k s' i hs') _ _
    (addrInv_pushStep n _ _ _
      (addrInv_setAB _ _ _
        (addrInv_pushStep n _ _ _ (addrInv_pivSwap n k s hs))))

theorem addrInv_gjState (n : Nat) (A0 : Mat) (b0 : Vec) (k : Nat) :
    AddrInv (gjState n A0 b0 k) :=
  addrInv_foldl _ (fun s' k' hs' => addrInv_gjStage n s' k' hs') _ _ (addrInv_base A0 b0)

theorem addrInv_backSub (n : Nat) :
    ∀ (l : List Nat) (sx : DState × Vec), AddrInv sx.1 →
      AddrInv ((l.foldl (geBackSub n) sx).1) := by
  intro l
  induction l with
  | nil => intro sx hs; exact hs
  | cons a t ih =>
    intro sx hs
    exact ih _ (addrInv_pushStep n _ _ _ hs)

theorem solveGaussElimination_addrInv (n : Nat) (A : Mat) (b : Vec) :
    (solveGaussElimination n A b).steps.length =
        (((List.range n).reverse).foldl (geBackSub n)
          (pushStep n (geState n A b n) .backSubStart noHl, fun _ => 0)).1.steps.length ∧
    ∀ i (hi : i < (solveGaussElimination n A b).steps.length),
      (solveGaussElimination n A b).steps[i].matrixAddr = 4 + 2 * i ∧
      (solveGaussElimination n A b).steps[i].vectorAddr = 4 + 2 * i + 1 :=
  ⟨rfl, (addrInv_backSub n _ _
    (addrInv_pushStep n _ _ _ (addrInv_geState n A b n))).2⟩

theorem solveGaussEliminationWithPivoting_addrInv (n : Nat) (A : Mat) (b : Vec) :
    ∀ i (hi : i < (solveGaussEliminationWithPivoting n A b).steps.length),
      (solveGaussEliminationWithPivoting n A b).steps[i].matrixAddr = 4 + 2 * i ∧
      (solveGaussEliminationWithPivoting n A b).steps[i].vectorAddr = 4 + 2 * i + 1 :=
  (addrInv_backSub n _ _
    (addrInv_pushStep n _ _ _ (addrInv_pivState n A b n))).2

theorem solveGaussJordan_addrInv (n : Nat) (A : Mat) (b : Vec) :
    ∀ i (hi : i < (solveGaussJordan n A b).steps.length),
      (solveGaussJordan n A b).steps[i].matrixAddr = 4 + 2 * i ∧
      (solveGaussJordan n A b).steps[i].vectorAddr = 4 + 2 * i + 1 :=
  (addrInv_pushStep n _ _ _ (addrInv_gjState n A b n)).2

theorem iterSteps_aliased (iterF : Nat → Mat → Vec → List ℚ → List ℚ) (n : Nat) (A : Mat)
    (b : Vec) (tol : ℚ) (m : Nat) (R : SolveResult)
    (hR : R =
      { steps := initialStep n A b (List.replicate n 0) ::
          stepsUpTo iterF n A b (runLen iterF n A b tol m 0),
        solution := xSeq iterF n A b (runLen iterF n A b tol m 0),
        stype := SolveType.iterative,
        converged := some (didConv iterF n A b tol m 0) }) :
    ∀ st ∈ R.steps, st.matrixAddr = callerMatrixAddr ∧ st.vectorAddr = callerVectorAddr := by
  intro st hst
  rw [hR] at hst
  rcases List.mem_cons.1 hst with rfl | hmem
  · exact ⟨rfl, rfl⟩
  · unfold stepsUpTo at hmem
    rcases List.mem_map.1 hmem with ⟨k, _, rfl⟩
    exact ⟨rfl, rfl⟩

/-- Counterexample to claim C2, as stated, at the concrete input
`n = 1, A = [[2]], b = [4], tolerance = 1/1000, maxIter = 2`: `solveJacobi`
records three steps, and the matrix/vector stored in each of them is the
caller's live `matrix`/`vector` array itself (allocation addresses 0 and 1) —
so the recorded steps are aliased both with the caller's data and with each
other, contradicting "never aliased" for "every solver". -/
theorem claim_C2_counterexample :
    ((solveJacobi 1 tinyExA tinyExB (1 / 1000) 2).steps.head?).map
        (fun st => (st.matrixAddr, st.vectorAddr)) =
      some (callerMatrixAddr, callerVectorAddr) ∧
    (solveJacobi 1 tinyExA tinyExB (1 / 1000) 2).steps.map (fun st => st.matrixAddr) =
      [callerMatrixAddr, callerMatrixAddr, callerMatrixAddr] ∧
    ¬(∀ st ∈ (solveJacobi 1 tinyExA tinyExB (1 / 1000) 2).steps,
        st.matrixAddr ≠ callerMatrixAddr) := by
  have hsteps :
      (solveJacobi 1 tinyExA tinyExB (1 / 1000) 2).steps.map (fun st => st.matrixAddr) =
        [callerMatrixAddr, callerMatrixAddr, callerMatrixAddr] := by
    norm_num [solveJacobi, iterLoop, jacobiIterate, jacobiRow, errSq, convTest, iterStep,
      initialStep, tinyExA, tinyExB, List.range_succ, vecList, matList, callerMatrixAddr]
  refine ⟨?_, hsteps, ?_⟩
  · cases hs : (solveJacobi 1 tinyExA tinyExB (1 / 1000) 2).steps with
    | nil => rw [hs] at hsteps; cases hsteps
    | cons st rest =>
      rw [hs] at hsteps
      simp only [List.map_cons, List.cons.injEq] at hsteps
      have := iterSteps_aliased jacobiIterate 1 tinyExA tinyExB (1 / 1000) 2 _
        (solveJacobi_eq 1 tinyExA tinyExB (1 / 1000) 2) st (by rw [hs]; exact List.mem_cons_self st rest)
      simp [hs, this.1, this.2]
  · intro hall
    cases hmap : (solveJacobi 1 tinyExA tinyExB (1 / 1000) 2).steps with
    | nil => rw [hmap] at hsteps; cases hsteps
    | cons st rest =>
      rw [hmap] at hsteps
      simp only [List.map_cons, List.cons.injEq] at hsteps
      exact hall st (by rw [hmap]; exact List.mem_cons_self st rest) hsteps.1

/-- Claim C2 as amended: in the three direct solvers every recorded step's
matrix and vector are freshly allocated copies — the `t`-th step holds
addresses `(4 + 2t, 5 + 2t)`, hence the addresses are pairwise distinct across
steps and distinct from the caller's arrays (addresses 0, 1) and the working
copies (2, 3), so mutating one step's arrays can alter neither another step
nor the caller's data; in the two iterative solvers, by contrast, every
recorded step stores the caller's live `matrix` and `vector` arrays themselves
(addresses 0 and 1, shared by all steps of the solve), while `xCurrent` and
`errorSqHistory` are fresh copies. -/
theorem claim_C2 (n : Nat) (A : Mat) (b : Vec) (tol : ℚ) (m : Nat) :
    (∀ R ∈ ([solveGaussElimination n A b, solveGaussEliminationWithPivoting n A b,
        solveGaussJordan n A b] : List SolveResult),
      ∀ i (hi : i < R.steps.length),
        R.steps[i].matrixAddr = 4 + 2 * i ∧
        R.steps[i].vectorAddr = 4 + 2 * i + 1 ∧
        R.steps[i].matrixAddr ≠ callerMatrixAddr ∧
        R.steps[i].vectorAddr ≠ callerVectorAddr ∧
        ∀ j (hj : j < R.steps.length), i ≠ j →
          R.steps[i].matrixAddr ≠ R.steps[j].matrixAddr ∧
          R.steps[i].matrixAddr ≠ R.steps[j].vectorAddr ∧
          R.steps[i].vectorAddr ≠ R.steps[j].vectorAddr) ∧
    (∀ R ∈ ([solveJacobi n A b tol m, solveGaussSeidel n A b tol m] : List SolveResult),
      ∀ st ∈ R.steps,
        st.matrixAddr = callerMatrixAddr ∧ st.vectorAddr = callerVectorAddr) := by
  constructor
  · intro R hR i hi
    have haddr : ∀ i' (hi' : i' < R.steps.length),
        R.steps[i'].matrixAddr = 4 + 2 * i' ∧
        R.steps[i'].vectorAddr = 4 + 2 * i' + 1 := by
      rcases List.mem_cons.1 hR with rfl | hR2
      · exact (solveGaussElimination_addrInv n A b).2
      rcases List.mem_cons.1 hR2 with rfl | hR3
      · exact solveGaussEliminationWithPivoting_addrInv n A b
      rcases List.mem_cons.1 hR3 with rfl | hR4
      · exact solveGaussJordan_addrInv n A b
      · cases hR4
    obtain ⟨hm, hv⟩ := haddr i hi
    refine ⟨hm, hv, ?_, ?_, ?_⟩
    · rw [hm]; unfold callerMatrixAddr; omega
    · rw [hv]; unfold callerVectorAddr; omega
    · intro j hj hij
      obtain ⟨hm', hv'⟩ := haddr j hj
      rw [hm, hv, hm', hv']
      omega
  · intro R hR
    rcases List.mem_cons.1 hR with rfl | hR2
    · exact iterSteps_aliased jacobiIterate n A b tol m _ (solveJacobi_eq n A b tol m)
    rcases List.mem_cons.1 hR2 with rfl | hR3
    · exact iterSteps_aliased seidelIterate n A b tol m _ (solveGaussSeidel_eq n A b tol m)
    · cases hR3

/-- Witness for the amended claim C2: on the 1×1 system, the first two steps
of `solveGaussElimination` carry the fresh address pairs `(4, 5)` and `(6, 7)`,
and the first step of `solveJacobi` carries the caller's addresses. -/
theorem claim_C2_witness :
    ((solveGaussElimination 1 tinyExA tinyExB).steps[0]?).map
        (fun st => (st.matrixAddr, st.vectorAddr)) = some (4, 5) ∧
    ((solveGaussElimination 1 tinyExA tinyExB).steps[1]?).map
        (fun st => (st.matrixAddr, st.vectorAddr)) = some (6, 7) ∧
    ((solveJacobi 1 tinyExA tinyExB (1 / 1000) 2).steps.head?).map
        (fun st => (st.matrixAddr, st.vectorAddr)) =
      some (callerMatrixAddr, callerVectorAddr) := by
  have h := claim_C2 1 tinyExA tinyExB (1 / 1000) 2
  have hlen : (solveGaussElimination 1 tinyExA tinyExB).steps.length = 4 := by
    norm_num [solveGaussElimination, geState, geStage, geElimRow, geElimRowV, pushStep, mkStep,
      subRowA, subRowB, geBackSub, backSubVal, upd, updM, vecList, matList, tinyExA, tinyExB,
      List.range_succ, List.range', noHl]
  have h0 := h.1 (solveGaussElimination 1 tinyExA tinyExB) (by simp) 0 (by omega)
  have h1 := h.1 (solveGaussElimination 1 tinyExA tinyExB) (by simp) 1 (by omega)
  have hjlen : 0 < (solveJacobi 1 tinyExA tinyExB (1 / 1000) 2).steps.length := by
    rw [solveJacobi_eq]
    simp
  refine ⟨?_, ?_, ?_⟩
  · rw [List.getElem?_eq_getElem (by omega)]
    simp only [Option.map_some', Option.some.injEq, Prod.mk.injEq]
    exact ⟨h0.1, h0.2.1⟩
  · rw [List.getElem?_eq_getElem (by omega)]
    simp only [Option.map_some', Option.some.injEq, Prod.mk.injEq]
    exact ⟨h1.1, h1.2.1⟩
  · cases hs : (solveJacobi 1 tinyExA tinyExB (1 / 1000) 2).steps with
    | nil => rw [hs] at hjlen; simp at hjlen
    | cons st rest =>
      have := (h.2 (solveJacobi 1 tinyExA tinyExB (1 / 1000) 2) (by simp) st
        (by rw [hs]; exact List.mem_cons_self st rest))
      simp [this.1, this.2]

/-!  ## Pivot search (claim C5) -/

theorem pivotFold_inv (A : Mat) (k : Nat) :
    ∀ (c a p0 : Nat), k ≤ p0 → p0 < a →
      (∀ i, k ≤ i → i < a → |A i k| ≤ |A p0 k|) →
      (∀ i, k ≤ i → i < p0 → |A i k| < |A p0 k|) →
      k ≤ (List.range' a c).foldl (fun p i => if |A i k| > |A p k| then i else p) p0 ∧
      (List.range' a c).foldl (fun p i => if |A i k| > |A p k| then i else p) p0 < a + c ∧
      (∀ i, k ≤ i → i < a + c →
        |A i k| ≤
          |A ((List.range' a c).foldl (fun p i => if |A i k| > |A p k| then i else p) p0) k|) ∧
      (∀ i, k ≤ i →
        i < (List.range' a c).foldl (fun p i => if |A i k| > |A p k| then i else p) p0 →
        |A i k| <
          |A ((List.range' a c).foldl (fun p i => if |A i k| > |A p k| then i else p) p0) k|) := by
  intro c
  induction c with
  | zero =>
    intro a p0 h1 h2 h3 h4
    refine ⟨h1, ?_, fun i hi1 hi2 => h3 i hi1 (by omega), h4⟩
    show p0 < a + 0
    omega
  | succ c ih =>
    intro a p0 h1 h2 h3 h4
    rw [List.range'_succ, List.foldl_cons]
    by_cases hcmp : |A a k| > |A p0 k|
    · rw [if_pos hcmp]
      have := ih (a + 1) a (by omega) (by omega)
        (fun i hi1 hi2 => by
          rcases Nat.lt_or_ge i a with hia | hia
          · exact le_of_lt (lt_of_le_of_lt (h3 i hi1 hia) hcmp)
          · have : i = a := by omega
            subst this
            exact le_refl _)
        (fun i hi1 hi2 => lt_of_le_of_lt (h3 i hi1 hi2) hcmp)
      have hrw : a + 1 + c = a + (c + 1) := by omega
      rw [hrw] at this
      exact this
    · rw [if_neg hcmp]
      have := ih (a + 1) p0 h1 (by omega)
        (fun i hi1 hi2 => by
          rcases Nat.lt_or_ge i a with hia | hia
          · exact h3 i hi1 hia
          · have heq : i = a := by omega
            subst heq
            exact le_of_not_lt hcmp)
        h4
      have hrw : a + 1 + c = a + (c + 1) := by omega
      rw [hrw] at this
      exact this

theorem pivotSearch_spec (A : Mat) (k n : Nat) (hk : k < n) :
    k ≤ pivotSearch A k n ∧ pivotSearch A k n < n ∧
    (∀ i, k ≤ i → i < n → |A i k| ≤ |A (pivotSearch A k n) k|) ∧
    (∀ i, k ≤ i → i < pivotSearch A k n → |A i k| < |A (pivotSearch A k n) k|) := by
  have h := pivotFold_inv A k (n - (k + 1)) (k + 1) k (le_refl k) (by omega)
    (fun i hi1 hi2 => by
      have : i = k := by omega
      subst this
      exact le_refl _)
    (fun i hi1 hi2 => by omega)
  have hn : k + 1 + (n - (k + 1)) = n := by omega
  rw [hn] at h
  exact ⟨h.1, h.2.1, h.2.2.1, h.2.2.2⟩

theorem foldl_steps_extend {α : Type} (f : DState → α → DState)
    (hf : ∀ s x, ∃ t, (f s x).steps = s.steps ++ t) :
    ∀ (l : List α) (s : DState), ∃ t, (l.foldl f s).steps = s.steps ++ t := by
  intro l
  induction l with
  | nil => intro s; exact ⟨[], by simp⟩
  | cons a u ih =>
    intro s
    obtain ⟨t1, ht1⟩ := hf s a
    obtain ⟨t2, ht2⟩ := ih (f s a)
    exact ⟨t1 ++ t2, by rw [List.foldl_cons, ht2, ht1, List.append_assoc]⟩

theorem pivState_succ (n : Nat) (A : Mat) (b : Vec) (k : Nat) :
    pivState n A b (k + 1) = pivStage n (pivState n A b k) k := by
  unfold pivState
  rw [List.range_succ, List.foldl_append, List.foldl_cons, List.foldl_nil]

theorem pivStage_steps (n : Nat) (s : DState) (k : Nat) :
    ∃ rest, (pivStage n s k).steps =
      s.steps ++
        (if pivotSearch s.A k n = k then []
          else [mkStep n
              { s with A := swapRows s.A k (pivotSearch s.A k n),
                       b := swapVec s.b k (pivotSearch s.A k n) }
              (.swapStep k (pivotSearch s.A k n)) ⟨[k, pivotSearch s.A k n], [], []⟩]) ++
        mkStep n (pivSwap n k s) (.pivotSelect k) ⟨[], [], [(k, k)]⟩ :: rest := by
  obtain ⟨tail, htail⟩ := foldl_steps_extend (geElimRow n k)
    (fun s' i => ⟨_, rfl⟩)
    (List.range' (k + 1) (n - (k + 1)))
    (pushStep n (pivSwap n k s) (.pivotSelect k) ⟨[], [], [(k, k)]⟩)
  refine ⟨tail, ?_⟩
  unfold pivStage
  rw [htail]
  by_cases hp : pivotSearch s.A k n ≠ k
  · rw [if_neg (by omega : ¬pivotSearch s.A k n = k)]
    unfold pivSwap
    rw [if_pos hp]
    simp [pushStep, List.append_assoc]
  · rw [if_pos (by omega : pivotSearch s.A k n = k)]
    unfold pivSwap
    rw [if_neg hp]
    simp [pushStep, List.append_assoc]

/-- Claim C5: at every elimination column `k` of the pivoting solver, the
selected `pivotRow` is the earliest row in `k..n-1` attaining the maximal
`|A[i][k]|` (strict `>` comparison keeps the earliest row), and when
`pivotRow ≠ k` the rows are swapped in both `A` and `b` and a swap step with
`highlights.rows = [k, pivotRow]` is recorded immediately before the
pivot-selected step. -/
theorem claim_C5 (n : Nat) (A : Mat) (b : Vec) (k : Nat) (hk : k < n) :
    (k ≤ pivotSearch (pivState n A b k).A k n ∧ pivotSearch (pivState n A b k).A k n < n) ∧
    (∀ i, k ≤ i → i < n →
      |(pivState n A b k).A i k| ≤
        |(pivState n A b k).A (pivotSearch (pivState n A b k).A k n) k|) ∧
    (∀ i, k ≤ i → i < pivotSearch (pivState n A b k).A k n →
      |(pivState n A b k).A i k| <
        |(pivState n A b k).A (pivotSearch (pivState n A b k).A k n) k|) ∧
    pivState n A b (k + 1) = pivStage n (pivState n A b k) k ∧
    ∃ rest, (pivStage n (pivState n A b k) k).steps =
      (pivState n A b k).steps ++
        (if pivotSearch (pivState n A b k).A k n = k then []
          else [mkStep n
              { pivState n A b k with
                A := swapRows (pivState n A b k).A k (pivotSearch (pivState n A b k).A k n),
                b := swapVec (pivState n A b k).b k (pivotSearch (pivState n A b k).A k n) }
              (.swapStep k (pivotSearch (pivState n A b k).A k n))
              ⟨[k, pivotSearch (pivState n A b k).A k n], [], []⟩]) ++
        mkStep n (pivSwap n k (pivState n A b k)) (.pivotSelect k) ⟨[], [], [(k, k)]⟩ ::
          rest := by
  obtain ⟨hp1, hp2, hp3, hp4⟩ := pivotSearch_spec (pivState n A b k).A k n hk
  exact ⟨⟨hp1, hp2⟩, hp3, hp4, pivState_succ n A b k, pivStage_steps n (pivState n A b k) k⟩

/-- Witness for claim C5 at the swap-requiring system `A = [[0,1],[1,0]]`,
column `k = 0`. -/
theorem claim_C5_witness :
    (0 : Nat) < 2 ∧
    (0 ≤ pivotSearch (pivState 2 swapExA swapExB 0).A 0 2 ∧
      pivotSearch (pivState 2 swapExA swapExB 0).A 0 2 < 2) :=
  ⟨by decide, (claim_C5 2 swapExA swapExB 0 (by decide)).1⟩

/-!  ## Best-method selection (claims C7, C10) -/

theorem bestFold_spec (ps : List (MKey × ℚ)) :
    ∀ (s0 : ℚ) (cur : Option MKey),
      ((∀ p ∈ ps, p.2 ≤ s0) ∧
        ps.foldl (fun bs p => if p.2 > bs.1 then (p.2, some p.1) else bs) (s0, cur) =
          (s0, cur)) ∨
      (∃ i, ∃ hi : i < ps.length,
        ps.foldl (fun bs p => if p.2 > bs.1 then (p.2, some p.1) else bs) (s0, cur) =
          (ps[i].2, some ps[i].1) ∧
        s0 < ps[i].2 ∧
        (∀ j (hj : j < ps.length), ps[j].2 ≤ ps[i].2) ∧
        (∀ j (hj : j < ps.length), j < i → ps[j].2 < ps[i].2 ∨ ps[j].2 ≤ s0)) := by
  induction ps with
  | nil => intro s0 cur; exact Or.inl ⟨by simp, rfl⟩
  | cons p rest ih =>
    intro s0 cur
    rw [List.foldl_cons]
    by_cases hp : p.2 > s0
    · rw [if_pos hp]
      rcases ih p.2 (some p.1) with ⟨hall, heq⟩ | ⟨i, hi, heq, hgt, hmax, hstrict⟩
      · refine Or.inr ⟨0, by simp, ?_, ?_, ?_, ?_⟩
        · rw [heq]
          simp
        · simpa using hp
        · intro j hj
          cases j with
          | zero => simp
          | succ j' =>
            simp only [List.getElem_cons_succ, List.getElem_cons_zero]
            exact hall _ (List.getElem_mem _)
        · intro j hj hj0
          omega
      · refine Or.inr ⟨i + 1, by simpa using hi, ?_, ?_, ?_, ?_⟩
        · rw [heq]
          simp
        · simp only [List.getElem_cons_succ]
          exact lt_trans hp hgt
        · intro j hj
          cases j with
          | zero =>
            simp only [List.getElem_cons_succ, List.getElem_cons_zero]
            exact le_of_lt hgt
          | succ j' =>
            simp only [List.getElem_cons_succ]
            exact hmax j' (by simpa using hj)
        · intro j hj hji
          cases j with
          | zero =>
            simp only [List.getElem_cons_succ, List.getElem_cons_zero]
            exact Or.inl hgt
          | succ j' =>
            simp only [List.getElem_cons_succ]
            rcases hstrict j' (by simpa using hj) (by omega) with h | h
            · exact Or.inl h
            · exact Or.inl (lt_of_le_of_lt h hgt)
    · rw [if_neg hp]
      rcases ih s0 cur with ⟨hall, heq⟩ | ⟨i, hi, heq, hgt, hmax, hstrict⟩
      · refine Or.inl ⟨?_, heq⟩
        intro q hq
        rcases List.mem_cons.1 hq with rfl | hq'
        · exact le_of_not_lt hp
        · exact hall q hq'
      · refine Or.inr ⟨i + 1, by simpa using hi, ?_, ?_, ?_, ?_⟩
        · rw [heq]
          simp
        · simpa using hgt
        · intro j hj
          cases j with
          | zero =>
            simp only [List.getElem_cons_succ, List.getElem_cons_zero]
            exact le_trans (le_of_not_lt hp) (le_of_lt hgt)
          | succ j' =>
            simp only [List.getElem_cons_succ]
            exact hmax j' (by simpa using hj)
        · intro j hj hji
          cases j with
          | zero =>
            simp only [List.getElem_cons_succ, List.getElem_cons_zero]
            exact Or.inr (le_of_not_lt hp)
          | succ j' =>
            simp only [List.getElem_cons_succ]
            exact hstrict j' (by simpa using hj) (by omega)

theorem compareAllMethods_best (n : Nat) (A : Mat) (b : Vec) :
    (compareAllMethods n A b).bestMethod =
      ((methodScores n A b).foldl
        (fun bs p => if p.2 > bs.1 then (p.2, some p.1) else bs) (-1, none)).2 := rfl

theorem directScore_pos (metrics : MKey → Metric) (m : MKey) : 0 < directScore metrics m := by
  unfold directScore
  apply div_pos
  · norm_num
  · positivity

theorem iterScore_nonneg (metrics : MKey → Metric) (m : MKey) : 0 ≤ iterScore metrics m := by
  unfold iterScore
  split
  · apply le_of_lt
    apply div_pos
    · norm_num
    · positivity
  · exact le_refl 0

theorem methodScores_length (n : Nat) (A : Mat) (b : Vec) :
    (methodScores n A b).length = 5 := rfl

theorem methodScores_gt_neg_one (n : Nat) (A : Mat) (b : Vec) :
    ∀ j (hj : j < (methodScores n A b).length), (-1 : ℚ) < (methodScores n A b)[j].2 := by
  intro j hj
  have h5 : j < 5 := by simpa [methodScores_length] using hj
  interval_cases j <;>
    simp only [methodScores, List.getElem_cons_zero, List.getElem_cons_succ] <;>
    first
      | exact lt_trans (by norm_num) (directScore_pos (cmpMetrics n A b) _)
      | exact lt_of_lt_of_le (by norm_num) (iterScore_nonneg (cmpMetrics n A b) _)

/-- Claim C7: `compareAllMethods` selects as `bestMethod` the first method (in
the fixed order gauss, pivoting, gaussJordan, jacobi, seidel) attaining the
maximum of the scores `1000/(steps+1)` (direct) resp. `500/(steps+1)` if
converged else `0` (iterative): the winner's score is maximal and every
earlier method scores strictly less. -/
theorem claim_C7 (n : Nat) (A : Mat) (b : Vec) :
    (methodScores n A b).map Prod.fst =
      [MKey.gauss, MKey.pivoting, MKey.gaussJordan, MKey.jacobi, MKey.seidel] ∧
    ∃ i, ∃ hi : i < (methodScores n A b).length,
      (compareAllMethods n A b).bestMethod = some ((methodScores n A b)[i].1) ∧
      (∀ j (hj : j < (methodScores n A b).length),
        (methodScores n A b)[j].2 ≤ (methodScores n A b)[i].2) ∧
      (∀ j (hj : j < (methodScores n A b).length), j < i →
        (methodScores n A b)[j].2 < (methodScores n A b)[i].2) := by
  refine ⟨rfl, ?_⟩
  rcases bestFold_spec (methodScores n A b) (-1) none with ⟨hall, _⟩ | ⟨i, hi, heq, hgt, hmax, hstrict⟩
  · exfalso
    have h0lt : 0 < (methodScores n A b).length := by simp [methodScores_length]
    have h0 := hall (methodScores n A b)[0] (List.getElem_mem h0lt)
    have := methodScores_gt_neg_one n A b 0 h0lt
    linarith
  · refine ⟨i, hi, ?_, hmax, ?_⟩
    · rw [compareAllMethods_best, heq]
    · intro j hj hji
      rcases hstrict j hj hji with h | h
      · exact h
      · have := methodScores_gt_neg_one n A b j hj
        linarith

theorem jacobiReason_ne_unable (x : String) :
    ("✓ Converged in " ++ x ++ " steps. Good for sparse systems.") ≠
      "Unable to determine best method." := by
  intro he
  have hd := congrArg String.data he
  rw [String.data_append, String.data_append] at hd
  rw [show ("✓ Converged in " : String).data =
      '✓' :: (" Converged in " : String).data from by decide] at hd
  rw [List.cons_append, List.cons_append] at hd
  rw [show ("Unable to determine best method." : String).data =
      'U' :: ("nable to determine best method." : String).data from by decide] at hd
  injection hd with hc _
  exact absurd hc (by decide)

theorem seidelReason_ne_unable (x : String) :
    ("✓ RECOMMENDED for iterative! Converged in " ++ x ++ " steps. Faster convergence.") ≠
      "Unable to determine best method." := by
  intro he
  have hd := congrArg String.data he
  rw [String.data_append, String.data_append] at hd
  rw [show ("✓ RECOMMENDED for iterative! Converged in " : String).data =
      '✓' :: (" RECOMMENDED for iterative! Converged in " : String).data from by decide] at hd
  rw [List.cons_append, List.cons_append] at hd
  rw [show ("Unable to determine best method." : String).data =
      'U' :: ("nable to determine best method." : String).data from by decide] at hd
  injection hd with hc _
  exact absurd hc (by decide)

/-- Claim C10: for every input (`n ≥ 1`), `compareAllMethods` returns a
non-null `bestMethod` (the direct scan always beats the initial `-1`), so
`getReason`'s `"Unable to determine best method."` fallback is unreachable
through `compareAllMethods`. -/
theorem claim_C10 (n : Nat) (A : Mat) (b : Vec) (_hn : 1 ≤ n) :
    (∃ k, (compareAllMethods n A b).bestMethod = some k) ∧
    (compareAllMethods n A b).reason ≠ "Unable to determine best method." := by
  have hbest : ∃ k, (compareAllMethods n A b).bestMethod = some k := by
    rcases bestFold_spec (methodScores n A b) (-1) none with ⟨hall, _⟩ | ⟨i, hi, heq, _, _, _⟩
    · exfalso
      have h0lt : 0 < (methodScores n A b).length := by simp [methodScores_length]
      have h0 := hall (methodScores n A b)[0] (List.getElem_mem h0lt)
      have := methodScores_gt_neg_one n A b 0 h0lt
      linarith
    · exact ⟨(methodScores n A b)[i].1, by rw [compareAllMethods_best, heq]⟩
  refine ⟨hbest, ?_⟩
  obtain ⟨k, hk⟩ := hbest
  have hreason : (compareAllMethods n A b).reason =
      getReason (compareAllMethods n A b).bestMethod (cmpMetrics n A b) := rfl
  rw [hreason, hk]
  cases k with
  | gauss =>
    have hred : getReason (some MKey.gauss) (cmpMetrics n A b) =
        "✓ Best for well-conditioned systems. Simple and fastest." := rfl
    rw [hred]
    decide
  | pivoting =>
    have hred : getReason (some MKey.pivoting) (cmpMetrics n A b) =
        "✓ RECOMMENDED! Better stability with minimal overhead." := rfl
    rw [hred]
    decide
  | gaussJordan =>
    have hred : getReason (some MKey.gaussJordan) (cmpMetrics n A b) =
        "✓ Good for finding inverse or RREF. More operations required." := rfl
    rw [hred]
    decide
  | jacobi =>
    have hred : getReason (some MKey.jacobi) (cmpMetrics n A b) =
        if (solveJacobi n A b (1 / 1000) 50).converged = some true then
          "✓ Converged in " ++ toString (solveJacobi n A b (1 / 1000) 50).steps.length ++
            " steps. Good for sparse systems."
        else "✗ Did not converge. Try direct methods or check diagonal dominance." := rfl
    rw [hred]
    split
    · exact jacobiReason_ne_unable _
    · decide
  | seidel =>
    have hred : getReason (some MKey.seidel) (cmpMetrics n A b) =
        if (solveGaussSeidel n A b (1 / 1000) 50).converged = some true then
          "✓ RECOMMENDED for iterative! Converged in " ++
              toString (solveGaussSeidel n A b (1 / 1000) 50).steps.length ++
            " steps. Faster convergence."
        else "✗ Did not converge. Try direct methods or check diagonal dominance." := rfl
    rw [hred]
    split
    · exact seidelReason_ne_unable _
    · decide

/-- Witness for claim C10 at the 1×1 system. -/
theorem claim_C10_witness :
    (1 : Nat) ≤ 1 ∧
    (∃ k, (compareAllMethods 1 tinyExA tinyExB).bestMethod = some k) ∧
    (compareAllMethods 1 tinyExA tinyExB).reason ≠ "Unable to determine best method." :=
  ⟨le_refl 1, claim_C10 1 tinyExA tinyExB (le_refl 1)⟩

/-!  ## Ranking (claim C8) -/

theorem getRanking_perm (ms : List Metric) :
    List.Perm (getRanking ms) (ms.map (fun m => (m, calculateScore m))) :=
  List.perm_insertionSort _ _

theorem getRanking_fst_perm (ms : List Metric) :
    List.Perm ((getRanking ms).map Prod.fst) ms := by
  have heq : List.map (Prod.fst ∘ fun m => (m, calculateScore m)) ms = ms := by
    induction ms with
    | nil => rfl
    | cons a t ih => rw [List.map_cons, ih]; rfl
  have h := (getRanking_perm ms).map Prod.fst
  rw [List.map_map, heq] at h
  exact h

theorem getRanking_pairing (ms : List Metric) :
    ∀ p ∈ getRanking ms, p.2 = calculateScore p.1 := by
  intro p hp
  have hmem : p ∈ ms.map (fun m => (m, calculateScore m)) := (getRanking_perm ms).mem_iff.1 hp
  rcases List.mem_map.1 hmem with ⟨m, _, rfl⟩
  rfl

theorem getRanking_fst_mem (ms : List Metric) (p : Metric × ℚ) (hp : p ∈ getRanking ms) :
    p.1 ∈ ms := by
  have hmem : p ∈ ms.map (fun m => (m, calculateScore m)) := (getRanking_perm ms).mem_iff.1 hp
  rcases List.mem_map.1 hmem with ⟨m, hm, rfl⟩
  exact hm

theorem getRanking_sorted (ms : List Metric) :
    List.Sorted (fun a b : Metric × ℚ => b.2 ≤ a.2) (getRanking ms) :=
  List.sorted_insertionSort _ _

theorem allMetrics_eq (n : Nat) (A : Mat) (b : Vec) :
    (compareAllMethods n A b).allMetrics =
      [cmpMetrics n A b .gauss, cmpMetrics n A b .pivoting, cmpMetrics n A b .gaussJordan,
        cmpMetrics n A b .jacobi, cmpMetrics n A b .seidel] := rfl

theorem calculateScore_direct_pos (n : Nat) (A : Mat) (b : Vec) (m : Metric)
    (hm : m ∈ (compareAllMethods n A b).allMetrics) (hd : m.mtype = SolveType.direct) :
    0 < calculateScore m := by
  rw [allMetrics_eq] at hm
  have hpos : ∀ (e : ℚ) (st : Nat), 0 < e → 0 < e * (1000 / (st + 1 : ℚ)) := by
    intro e st he
    apply mul_pos he
    apply div_pos
    · norm_num
    · positivity
  simp only [List.mem_cons, List.not_mem_nil, or_false] at hm
  rcases hm with rfl | rfl | rfl | rfl | rfl
  · rw [calculateScore, if_pos hd]
    exact hpos _ _ (by norm_num [cmpMetrics, mkMetric])
  · rw [calculateScore, if_pos hd]
    exact hpos _ _ (by norm_num [cmpMetrics, mkMetric])
  · rw [calculateScore, if_pos hd]
    exact hpos _ _ (by norm_num [cmpMetrics, mkMetric])
  · exact absurd hd (by simp [cmpMetrics, mkMetric])
  · exact absurd hd (by simp [cmpMetrics, mkMetric])

theorem calculateScore_nonconv (m : Metric) (h1 : m.mtype = SolveType.iterative)
    (h2 : m.converged = some false) : calculateScore m = 0 := by
  rw [calculateScore, if_neg (by rw [h1]; exact fun h => by cases h),
    if_neg (by rw [h2]; exact fun h => by cases h)]

/-- Claim C8: `getRanking` returns the given metrics (each paired with its
display score `calculateScore`) as a permutation sorted descending by score;
consequently, in the ranking of `compareAllMethods`' metrics, every direct
method (whose display score is positive) is placed before every non-converged
iterative method (whose display score is 0). -/
theorem claim_C8 :
    (∀ ms : List Metric,
      ((getRanking ms).map Prod.fst).Perm ms ∧
      (∀ p ∈ getRanking ms, p.2 = calculateScore p.1) ∧
      List.Sorted (fun a b : Metric × ℚ => b.2 ≤ a.2) (getRanking ms)) ∧
    ∀ (n : Nat) (A : Mat) (b : Vec) (i j : Nat)
      (hi : i < (getRanking ((compareAllMethods n A b).allMetrics)).length)
      (hj : j < (getRanking ((compareAllMethods n A b).allMetrics)).length),
      (getRanking ((compareAllMethods n A b).allMetrics))[i].1.mtype = SolveType.direct →
      (getRanking ((compareAllMethods n A b).allMetrics))[j].1.mtype = SolveType.iterative →
      (getRanking ((compareAllMethods n A b).allMetrics))[j].1.converged = some false →
      i < j := by
  constructor
  · intro ms
    exact ⟨getRanking_fst_perm ms, getRanking_pairing ms, getRanking_sorted ms⟩
  · intro n A b i j hi hj hdir hiter hnc
    by_contra hij
    have hji : j ≤ i := by omega
    have hsorted := getRanking_sorted ((compareAllMethods n A b).allMetrics)
    have hscorei : (getRanking ((compareAllMethods n A b).allMetrics))[i].2 =
        calculateScore (getRanking ((compareAllMethods n A b).allMetrics))[i].1 :=
      getRanking_pairing _ _ (List.getElem_mem hi)
    have hscorej : (getRanking ((compareAllMethods n A b).allMetrics))[j].2 =
        calculateScore (getRanking ((compareAllMethods n A b).allMetrics))[j].1 :=
      getRanking_pairing _ _ (List.getElem_mem hj)
    have hposi : 0 < calculateScore (getRanking ((compareAllMethods n A b).allMetrics))[i].1 :=
      calculateScore_direct_pos n A b _
        (getRanking_fst_mem _ _ (List.getElem_mem hi)) hdir
    have hzeroj : calculateScore (getRanking ((compareAllMethods n A b).allMetrics))[j].1 = 0 :=
      calculateScore_nonconv _ hiter hnc
    rcases Nat.lt_or_ge j i with hlt | hge
    · have hpw := (List.pairwise_iff_getElem).1 hsorted j i hj hi hlt
      rw [hscorei, hscorej, hzeroj] at hpw
      linarith
    · have : i = j := by omega
      subst this
      rw [hdir] at hiter
      cases hiter

set_option maxRecDepth 100000 in
set_option maxHeartbeats 8000000 in
theorem flatEx_gauss_steps : (solveGaussElimination 2 flatExA flatExB).steps.length = 7 := by
  norm_num [solveGaussElimination, geState, geStage, geElimRow, geElimRowV, pushStep, mkStep,
    subRowA, subRowB, geBackSub, backSubVal, upd, updM, vecList, matList, noHl,
    flatExA, flatExB, List.range_succ, List.range']

set_option maxRecDepth 100000 in
set_option maxHeartbeats 8000000 in
theorem flatEx_pivoting_steps :
    (solveGaussEliminationWithPivoting 2 flatExA flatExB).steps.length = 7 := by
  norm_num [solveGaussEliminationWithPivoting, pivState, pivStage, pivSwap, pivotSearch,
    geElimRow, geElimRowV, pushStep, mkStep, subRowA, subRowB, geBackSub, backSubVal,
    upd, updM, swapRows, swapVec, vecList, matList, noHl, flatExA, flatExB,
    List.range_succ, List.range']

set_option maxRecDepth 100000 in
set_option maxHeartbeats 8000000 in
theorem flatEx_gaussJordan_steps : (solveGaussJordan 2 flatExA flatExB).steps.length = 7 := by
  norm_num [solveGaussJordan, gjState, gjStage, gjElimRow, gjElimRowV, pivSwap, pivotSearch,
    gjNormV, normRowA, subRowA, subRowB, pushStep, mkStep, upd, updM, swapRows, swapVec,
    vecList, matList, noHl, flatExA, flatExB, List.range_succ, List.range']

set_option maxRecDepth 100000 in
set_option maxHeartbeats 8000000 in
theorem flatEx_jacobi_run : (solveJacobi 2 flatExA flatExB (1 / 1000) 50).converged = some false ∧
    (solveJacobi 2 flatExA flatExB (1 / 1000) 50).steps.length = 51 := by
  norm_num [solveJacobi, iterLoop, jacobiIterate, jacobiRow, errSq, convTest, iterStep,
    initialStep, flatExA, flatExB, List.range_succ, vecList, matList]

set_option maxRecDepth 100000 in
set_option maxHeartbeats 2000000 in
theorem flatEx_seidel_run :
    (solveGaussSeidel 2 flatExA flatExB (1 / 1000) 50).converged = some true ∧
    (solveGaussSeidel 2 flatExA flatExB (1 / 1000) 50).steps.length = 3 := by
  have hx1 : xSeq seidelIterate 2 flatExA flatExB 1 = [1, 0] := by
    rw [show (1 : Nat) = 0 + 1 from rfl, xSeq, xSeq]
    norm_num [seidelIterate, seidelGo, seidelRow, flatExA, flatExB, List.range_succ,
      List.replicate]
  have hx2 : xSeq seidelIterate 2 flatExA flatExB 2 = [1, 0] := by
    rw [show (2 : Nat) = 1 + 1 from rfl, xSeq, hx1]
    norm_num [seidelIterate, seidelGo, seidelRow, flatExA, flatExB, List.range_succ]
  have he1 : iterErrSq seidelIterate 2 flatExA flatExB 1 = 1 := by
    rw [iterErrSq, hx1, show (1 : Nat) - 1 = 0 from rfl, xSeq]
    norm_num [errSq, List.range_succ, List.replicate]
  have he2 : iterErrSq seidelIterate 2 flatExA flatExB 2 = 0 := by
    rw [iterErrSq, hx2, show (2 : Nat) - 1 = 1 from rfl, hx1]
    norm_num [errSq, List.range_succ]
  have hc1 : convTest (iterErrSq seidelIterate 2 flatExA flatExB 1) (1 / 1000) = false := by
    rw [he1]
    norm_num [convTest]
  have hc2 : convTest (iterErrSq seidelIterate 2 flatExA flatExB 2) (1 / 1000) = true := by
    rw [he2]
    norm_num [convTest]
  have hr : runLen seidelIterate 2 flatExA flatExB (1 / 1000) 50 0 = 2 := by
    rw [show (50 : Nat) = 49 + 1 from rfl, runLen_succ, show (0 : Nat) + 1 = 1 from rfl, hc1]
    rw [show (49 : Nat) = 48 + 1 from rfl, runLen_succ, show (1 : Nat) + 1 = 2 from rfl, hc2]
    simp
  have hd : didConv seidelIterate 2 flatExA flatExB (1 / 1000) 50 0 = true := by
    rw [show (50 : Nat) = 49 + 1 from rfl, didConv_succ, show (0 : Nat) + 1 = 1 from rfl, hc1]
    rw [show (49 : Nat) = 48 + 1 from rfl, didConv_succ, show (1 : Nat) + 1 = 2 from rfl, hc2]
    simp
  rw [solveGaussSeidel_eq]
  refine ⟨?_, ?_⟩
  · show some (didConv seidelIterate 2 flatExA flatExB (1 / 1000) 50 0) = some true
    rw [hd]
  · show (initialStep 2 flatExA flatExB (List.replicate 2 0) ::
        stepsUpTo seidelIterate 2 flatExA flatExB
          (runLen seidelIterate 2 flatExA flatExB (1 / 1000) 50 0)).length = 3
    rw [List.length_cons, stepsUpTo_length, hr]

set_option maxRecDepth 100000 in
set_option maxHeartbeats 8000000 in
theorem flatEx_score_gauss : calculateScore (cmpMetrics 2 flatExA flatExB .gauss) = 125 := by
  rw [calculateScore]
  norm_num [cmpMetrics, mkMetric, flatEx_gauss_steps]

set_option maxRecDepth 100000 in
set_option maxHeartbeats 8000000 in
theorem flatEx_score_pivoting :
    calculateScore (cmpMetrics 2 flatExA flatExB .pivoting) = 475 / 4 := by
  rw [calculateScore]
  norm_num [cmpMetrics, mkMetric, flatEx_pivoting_steps]

set_option maxRecDepth 100000 in
set_option maxHeartbeats 8000000 in
theorem flatEx_score_gaussJordan :
    calculateScore (cmpMetrics 2 flatExA flatExB .gaussJordan) = 425 / 4 := by
  rw [calculateScore]
  norm_num [cmpMetrics, mkMetric, flatEx_gaussJordan_steps]

set_option maxRecDepth 100000 in
set_option maxHeartbeats 8000000 in
theorem flatEx_score_jacobi : calculateScore (cmpMetrics 2 flatExA flatExB .jacobi) = 0 := by
  rw [calculateScore]
  norm_num [cmpMetrics, mkMetric, flatEx_jacobi_run.1, flatEx_jacobi_run.2]

set_option maxRecDepth 100000 in
set_option maxHeartbeats 8000000 in
theorem flatEx_score_seidel : calculateScore (cmpMetrics 2 flatExA flatExB .seidel) = 100 := by
  rw [calculateScore]
  norm_num [cmpMetrics, mkMetric, flatEx_seidel_run.1, flatEx_seidel_run.2]
  decide

set_option maxRecDepth 100000 in
set_option maxHeartbeats 8000000 in
theorem flatEx_getRanking : getRanking ((compareAllMethods 2 flatExA flatExB).allMetrics) =
    [(cmpMetrics 2 flatExA flatExB .gauss, (125 : ℚ)),
      (cmpMetrics 2 flatExA flatExB .pivoting, 475 / 4),
      (cmpMetrics 2 flatExA flatExB .gaussJordan, 425 / 4),
      (cmpMetrics 2 flatExA flatExB .seidel, 100),
      (cmpMetrics 2 flatExA flatExB .jacobi, 0)] := by
  have hmapfold : ((compareAllMethods 2 flatExA flatExB).allMetrics).map
      (fun m => (m, calculateScore m)) =
      [(cmpMetrics 2 flatExA flatExB .gauss, (125 : ℚ)),
        (cmpMetrics 2 flatExA flatExB .pivoting, 475 / 4),
        (cmpMetrics 2 flatExA flatExB .gaussJordan, 425 / 4),
        (cmpMetrics 2 flatExA flatExB .jacobi, 0),
        (cmpMetrics 2 flatExA flatExB .seidel, 100)] := by
    rw [allMetrics_eq]
    simp only [List.map_cons, List.map_nil]
    rw [flatEx_score_gauss, flatEx_score_pivoting, flatEx_score_gaussJordan,
      flatEx_score_jacobi, flatEx_score_seidel]
  rw [getRanking, hmapfold]
  norm_num [List.insertionSort, List.orderedInsert]

set_option maxRecDepth 100000 in
set_option maxHeartbeats 8000000 in
/-- Witness for claim C8 at the singular all-ones 2×2 system: Jacobi fails to
converge in the comparator's 50 iterations while all three direct methods (and
Gauss-Seidel) score positively, and the theorem places the direct method at
rank 0 above the non-converged Jacobi at rank 4. -/
theorem claim_C8_witness :
    ((getRanking ((compareAllMethods 2 flatExA flatExB).allMetrics))[0]?).map
        (fun p => p.1.mtype) = some SolveType.direct ∧
    ((getRanking ((compareAllMethods 2 flatExA flatExB).allMetrics))[4]?).map
        (fun p => (p.1.mtype, p.1.converged)) = some (SolveType.iterative, some false) ∧
    (0 : Nat) < 4 := by
  have h0q : (getRanking ((compareAllMethods 2 flatExA flatExB).allMetrics))[0]? =
      some (cmpMetrics 2 flatExA flatExB .gauss, (125 : ℚ)) := by
    rw [flatEx_getRanking]
    rfl
  have h4q : (getRanking ((compareAllMethods 2 flatExA flatExB).allMetrics))[4]? =
      some (cmpMetrics 2 flatExA flatExB .jacobi, (0 : ℚ)) := by
    rw [flatEx_getRanking]
    rfl
  have hlen : (getRanking ((compareAllMethods 2 flatExA flatExB).allMetrics)).length = 5 := by
    rw [flatEx_getRanking]
    rfl
  have h0 : (0 : Nat) < (getRanking ((compareAllMethods 2 flatExA flatExB).allMetrics)).length := by
    omega
  have h4 : (4 : Nat) < (getRanking ((compareAllMethods 2 flatExA flatExB).allMetrics)).length := by
    omega
  have h0e : (getRanking ((compareAllMethods 2 flatExA flatExB).allMetrics))[0] =
      (cmpMetrics 2 flatExA flatExB .gauss, (125 : ℚ)) := by
    have := List.getElem?_eq_getElem h0
    rw [h0q] at this
    exact Option.some.inj this.symm
  have h4e : (getRanking ((compareAllMethods 2 flatExA flatExB).allMetrics))[4] =
      (cmpMetrics 2 flatExA flatExB .jacobi, (0 : ℚ)) := by
    have := List.getElem?_eq_getElem h4
    rw [h4q] at this
    exact Option.some.inj this.symm
  have hdir : (getRanking ((compareAllMethods 2 flatExA flatExB).allMetrics))[0].1.mtype =
      SolveType.direct := by
    rw [h0e]
    rfl
  have hiter : (getRanking ((compareAllMethods 2 flatExA flatExB).allMetrics))[4].1.mtype =
      SolveType.iterative := by
    rw [h4e]
    rfl
  have hconv : (getRanking ((compareAllMethods 2 flatExA flatExB).allMetrics))[4].1.converged =
      some false := by
    rw [h4e]
    exact flatEx_jacobi_run.1
  refine ⟨?_, ?_, claim_C8.2 2 flatExA flatExB 0 4 h0 h4 hdir hiter hconv⟩
  · rw [h0q]
    rfl
  · rw [h4q, Option.map_some']
    rw [show (cmpMetrics 2 flatExA flatExB .jacobi, (0 : ℚ)).1.converged =
        (solveJacobi 2 flatExA flatExB (1 / 1000) 50).converged from rfl, flatEx_jacobi_run.1]
    rfl

theorem upd_eval (v : Vec) (i : Nat) (a : ℚ) (i' : Nat) :
    upd v i a i' = if i' = i then a else v i' := rfl

theorem updM_eval (A : Mat) (i j : Nat) (a : ℚ) (i' j' : Nat) :
    updM A i j a i' j' = if i' = i ∧ j' = j then a else A i' j' := rfl

theorem rowFold_eval (F : ℚ → ℚ → ℚ) (i k : Nat) :
    ∀ (m a : Nat) (A : Mat) (i' j' : Nat),
      ((List.range' a m).foldl (fun M j => updM M i j (F (M i j) (M k j))) A) i' j' =
        if i' = i ∧ a ≤ j' ∧ j' < a + m then F (A i j') (A k j') else A i' j' := by
  intro m
  induction m with
  | zero =>
    intro a A i' j'
    rw [show List.range' a 0 = [] from rfl, List.foldl_nil,
      if_neg (by rintro ⟨_, h1, h2⟩; omega)]
  | succ m ih =>
    intro a A i' j'
    rw [List.range'_succ, List.foldl_cons, ih]
    by_cases hii : i' = i
    · subst hii
      by_cases hja : j' = a
      · subst hja
        rw [if_neg (by rintro ⟨_, h1, _⟩; omega), if_pos ⟨rfl, le_refl _, by omega⟩,
          updM_eval, if_pos ⟨rfl, rfl⟩]
      · by_cases hjr : a ≤ j' ∧ j' < a + (m + 1)
        · rw [if_pos ⟨rfl, by omega, by omega⟩, if_pos ⟨rfl, hjr.1, hjr.2⟩,
            updM_eval, updM_eval, if_neg (by rintro ⟨_, h⟩; exact hja h),
            if_neg (by rintro ⟨_, h⟩; exact hja h)]
        · rw [if_neg (by rintro ⟨_, h1, h2⟩; exact hjr ⟨by omega, by omega⟩),
            if_neg (by rintro ⟨_, h1, h2⟩; exact hjr ⟨h1, h2⟩),
            updM_eval, if_neg (by rintro ⟨_, h⟩; exact hja h)]
    · rw [if_neg (by rintro ⟨h, _⟩; exact hii h), if_neg (by rintro ⟨h, _⟩; exact hii h),
        updM_eval, if_neg (by rintro ⟨h, _⟩; exact hii h)]

theorem subRowA_eval (n k i : Nat) (f : ℚ) (A : Mat) (i' j' : Nat) (hkn : k ≤ n) :
    subRowA n k i f A i' j' =
      if i' = i ∧ k ≤ j' ∧ j' < n then A i j' - f * A k j' else A i' j' := by
  have h := rowFold_eval (fun u v => u - f * v) i k (n - k) k A i' j'
  rw [show k + (n - k) = n from by omega] at h
  exact h

theorem normRowA_eval (n k : Nat) (p : ℚ) (A : Mat) (i' j' : Nat) (hkn : k ≤ n) :
    normRowA n k p A i' j' =
      if i' = k ∧ k ≤ j' ∧ j' < n then A k j' / p else A i' j' := by
  have h := rowFold_eval (fun u _ => u / p) k k (n - k) k A i' j'
  rw [show k + (n - k) = n from by omega] at h
  exact h

theorem subRowB_eval (k i : Nat) (f : ℚ) (b : Vec) (r : Nat) :
    subRowB k i f b r = if r = i then b i - f * b k else b r := rfl

theorem swapRows_eval (A : Mat) (k p : Nat) (i j : Nat) :
    swapRows A k p i j = if i = k then A p j else if i = p then A k j else A i j := by
  unfold swapRows
  split_ifs <;> rfl

theorem swapVec_eval (v : Vec) (k p : Nat) (i : Nat) :
    swapVec v k p i = if i = k then v p else if i = p then v k else v i := rfl

theorem rowSum_subRowA (n k i : Nat) (f : ℚ) (A : Mat) (x : Vec) (hkn : k ≤ n)
    (hkz : ∀ j < k, A k j = 0) (r : Nat) :
    rowSum n (subRowA n k i f A) x r =
      if r = i then rowSum n A x r - f * rowSum n A x k else rowSum n A x r := by
  unfold rowSum
  by_cases hri : r = i
  · subst hri
    rw [if_pos rfl]
    have hterm : ∀ j ∈ Finset.range n, subRowA n k r f A r j * x j =
        A r j * x j - f * (A k j * x j) := by
      intro j hj
      rw [subRowA_eval n k r f A r j hkn]
      by_cases hjk : k ≤ j
      · rw [if_pos ⟨rfl, hjk, Finset.mem_range.1 hj⟩]
        ring
      · rw [if_neg (by rintro ⟨_, h, _⟩; omega), hkz j (by omega)]
        ring
    rw [Finset.sum_congr rfl hterm, Finset.sum_sub_distrib, ← Finset.mul_sum]
  · rw [if_neg hri]
    apply Finset.sum_congr rfl
    intro j hj
    rw [subRowA_eval n k i f A r j hkn, if_neg (by rintro ⟨h, _⟩; exact hri h)]

theorem rowSum_normRowA (n k : Nat) (p : ℚ) (A : Mat) (x : Vec) (hkn : k ≤ n)
    (hkz : ∀ j < k, A k j = 0) (r : Nat) :
    rowSum n (normRowA n k p A) x r =
      if r = k then rowSum n A x r / p else rowSum n A x r := by
  unfold rowSum
  by_cases hrk : r = k
  · subst hrk
    rw [if_pos rfl]
    have hterm : ∀ j ∈ Finset.range n, normRowA n r p A r j * x j = A r j * x j / p := by
      intro j hj
      rw [normRowA_eval n r p A r j hkn]
      by_cases hjk : r ≤ j
      · rw [if_pos ⟨rfl, hjk, Finset.mem_range.1 hj⟩]
        ring
      · rw [if_neg (by rintro ⟨_, h, _⟩; omega), hkz j (by omega)]
        ring
    rw [Finset.sum_congr rfl hterm, ← Finset.sum_div]
  · rw [if_neg hrk]
    apply Finset.sum_congr rfl
    intro j hj
    rw [normRowA_eval n k p A r j hkn, if_neg (by rintro ⟨h, _⟩; exact hrk h)]

theorem rowSum_swapRows (n : Nat) (A : Mat) (k p : Nat) (x : Vec) (r : Nat) :
    rowSum n (swapRows A k p) x r =
      if r = k then rowSum n A x p else if r = p then rowSum n A x k
      else rowSum n A x r := by
  unfold rowSum
  by_cases hrk : r = k
  · rw [if_pos hrk]
    exact Finset.sum_congr rfl (fun j _ => by rw [swapRows_eval, if_pos hrk])
  · rw [if_neg hrk]
    by_cases hrp : r = p
    · rw [if_pos hrp]
      exact Finset.sum_congr rfl (fun j _ => by rw [swapRows_eval, if_neg hrk, if_pos hrp])
    · rw [if_neg hrp]
      exact Finset.sum_congr rfl (fun j _ => by rw [swapRows_eval, if_neg hrk, if_neg hrp])

theorem sat_subRow_iff (n k i : Nat) (f : ℚ) (A : Mat) (b x : Vec) (hin : i < n)
    (hkn : k < n) (hik : i ≠ k) (hkz : ∀ j < k, A k j = 0) :
    Sat n (subRowA n k i f A, subRowB k i f b) x ↔ Sat n (A, b) x := by
  have hki : ¬(k = i) := fun h => hik h.symm
  constructor
  · intro h r hr
    have hk := h k hkn
    rw [show (subRowA n k i f A, subRowB k i f b).1 = subRowA n k i f A from rfl,
      show (subRowA n k i f A, subRowB k i f b).2 = subRowB k i f b from rfl,
      rowSum_subRowA n k i f A x (le_of_lt hkn) hkz k, if_neg hki,
      subRowB_eval, if_neg hki] at hk
    have hr' := h r hr
    rw [show (subRowA n k i f A, subRowB k i f b).1 = subRowA n k i f A from rfl,
      show (subRowA n k i f A, subRowB k i f b).2 = subRowB k i f b from rfl,
      rowSum_subRowA n k i f A x (le_of_lt hkn) hkz r, subRowB_eval] at hr'
    by_cases hri : r = i
    · rw [if_pos hri, if_pos hri] at hr'
      subst hri
      rw [hk] at hr'
      show rowSum n A x r = b r
      linarith
    · rw [if_neg hri, if_neg hri] at hr'
      exact hr'
  · intro h r hr
    show rowSum n (subRowA n k i f A) x r = subRowB k i f b r
    rw [rowSum_subRowA n k i f A x (le_of_lt hkn) hkz r, subRowB_eval]
    by_cases hri : r = i
    · rw [if_pos hri, if_pos hri]
      have h1 := h r hr
      have h2 := h k hkn
      subst hri
      show rowSum n A x r - f * rowSum n A x k = b r - f * b k
      rw [h1, h2]
    · rw [if_neg hri, if_neg hri]
      exact h r hr

theorem sat_norm_iff (n k : Nat) (p : ℚ) (A : Mat) (b x : Vec) (hkn : k < n)
    (hp : p ≠ 0) (hkz : ∀ j < k, A k j = 0) :
    Sat n (normRowA n k p A, upd b k (b k / p)) x ↔ Sat n (A, b) x := by
  constructor
  · intro h r hr
    have hr' := h r hr
    rw [show (normRowA n k p A, upd b k (b k / p)).1 = normRowA n k p A from rfl,
      show (normRowA n k p A, upd b k (b k / p)).2 = upd b k (b k / p) from rfl,
      rowSum_normRowA n k p A x (le_of_lt hkn) hkz r, upd_eval] at hr'
    by_cases hrk : r = k
    · rw [if_pos hrk, if_pos hrk] at hr'
      show rowSum n A x r = b r
      subst hrk
      field_simp at hr'
      exact hr'
    · rw [if_neg hrk, if_neg hrk] at hr'
      exact hr'
  · intro h r hr
    show rowSum n (normRowA n k p A) x r = upd b k (b k / p) r
    rw [rowSum_normRowA n k p A x (le_of_lt hkn) hkz r, upd_eval]
    by_cases hrk : r = k
    · rw [if_pos hrk, if_pos hrk, h r hr, hrk]
    · rw [if_neg hrk, if_neg hrk]
      exact h r hr

theorem sat_swap_iff (n k p : Nat) (A : Mat) (b x : Vec) (hk : k < n) (hp : p < n) :
    Sat n (swapRows A k p, swapVec b k p) x ↔ Sat n (A, b) x := by
  constructor
  · intro h r hr
    show rowSum n A x r = b r
    by_cases hrk : r = k
    · subst hrk
      have hh := h p hp
      rw [show (swapRows A r p, swapVec b r p).1 = swapRows A r p from rfl,
        show (swapRows A r p, swapVec b r p).2 = swapVec b r p from rfl,
        rowSum_swapRows, swapVec_eval] at hh
      by_cases hpk : p = r
      · rw [if_pos hpk, if_pos hpk] at hh
        rw [← hpk]
        exact hh
      · rw [if_neg hpk, if_pos rfl, if_neg hpk, if_pos rfl] at hh
        exact hh
    · by_cases hrp : r = p
      · subst hrp
        have hh := h k hk
        rw [show (swapRows A k r, swapVec b k r).1 = swapRows A k r from rfl,
          show (swapRows A k r, swapVec b k r).2 = swapVec b k r from rfl,
          rowSum_swapRows, swapVec_eval, if_pos rfl, if_pos rfl] at hh
        exact hh
      · have hh := h r hr
        rw [show (swapRows A k p, swapVec b k p).1 = swapRows A k p from rfl,
          show (swapRows A k p, swapVec b k p).2 = swapVec b k p from rfl,
          rowSum_swapRows, swapVec_eval, if_neg hrk, if_neg hrp, if_neg hrk,
          if_neg hrp] at hh
        exact hh
  · intro h r hr
    show rowSum n (swapRows A k p) x r = swapVec b k p r
    rw [rowSum_swapRows, swapVec_eval]
    by_cases hrk : r = k
    · rw [if_pos hrk, if_pos hrk]
      exact h p hp
    · rw [if_neg hrk, if_neg hrk]
      by_cases hrp : r = p
      · rw [if_pos hrp, if_pos hrp]
        exact h k hk
      · rw [if_neg hrp, if_neg hrp]
        exact h r hr

theorem geElimFold_spec (n k : Nat) (x : Vec) :
    ∀ (m a : Nat) (A : Mat) (b : Vec), k < a → a + m ≤ n → (∀ j < k, A k j = 0) →
      (∀ r j', r < a ∨ a + m ≤ r →
        ((List.range' a m).foldl (geElimRowV n k) (A, b)).1 r j' = A r j') ∧
      (∀ r, r < a ∨ a + m ≤ r →
        ((List.range' a m).foldl (geElimRowV n k) (A, b)).2 r = b r) ∧
      (∀ r j', j' < k →
        ((List.range' a m).foldl (geElimRowV n k) (A, b)).1 r j' = A r j') ∧
      (∀ i, a ≤ i → i < a + m →
        ((List.range' a m).foldl (geElimRowV n k) (A, b)).1 i k =
          A i k - A i k / A k k * A k k) ∧
      (Sat n ((List.range' a m).foldl (geElimRowV n k) (A, b)) x ↔ Sat n (A, b) x) := by
  intro m
  induction m with
  | zero =>
    intro a A b hka han hkz
    rw [show List.range' a 0 = [] from rfl, List.foldl_nil]
    exact ⟨fun r j' _ => rfl, fun r _ => rfl, fun r j' _ => rfl,
      fun i h1 h2 => absurd (lt_of_le_of_lt h1 h2) (by omega), Iff.rfl⟩
  | succ m ih =>
    intro a A b hka han hkz
    rw [List.range'_succ, List.foldl_cons]
    have hkn : k < n := by omega
    have han' : a < n := by omega
    have hak : a ≠ k := by omega
    set f := A a k / A k k with hf
    have hstep : geElimRowV n k (A, b) a = (subRowA n k a f A, subRowB k a f b) := rfl
    rw [hstep]
    have hkz1 : ∀ j < k, subRowA n k a f A k j = 0 := by
      intro j hj
      rw [subRowA_eval n k a f A k j (le_of_lt hkn), if_neg (by rintro ⟨h, _⟩; exact hak h.symm)]
      exact hkz j hj
    obtain ⟨ih1, ih2, ih3, ih4, ih5⟩ :=
      ih (a + 1) (subRowA n k a f A) (subRowB k a f b) (by omega) (by omega) hkz1
    refine ⟨?_, ?_, ?_, ?_, ?_⟩
    · intro r j' hr
      rw [ih1 r j' (by omega), subRowA_eval n k a f A r j' (le_of_lt hkn),
        if_neg (by rintro ⟨h, _⟩; omega)]
    · intro r hr
      rw [ih2 r (by omega), subRowB_eval, if_neg (by omega)]
    · intro r j' hj
      rw [ih3 r j' hj, subRowA_eval n k a f A r j' (le_of_lt hkn),
        if_neg (by rintro ⟨_, h, _⟩; omega)]
    · intro i h1 h2
      by_cases hia : i = a
      · subst hia
        rw [ih1 i k (by omega), subRowA_eval n k i f A i k (le_of_lt hkn),
          if_pos ⟨rfl, le_refl k, hkn⟩, hf]
      · have hAik : subRowA n k a f A i k = A i k := by
          rw [subRowA_eval n k a f A i k (le_of_lt hkn), if_neg (by rintro ⟨h, _⟩; exact hia h)]
        have hAkk : subRowA n k a f A k k = A k k := by
          rw [subRowA_eval n k a f A k k (le_of_lt hkn),
            if_neg (by rintro ⟨h, _⟩; exact hak h.symm)]
        rw [ih4 i (by omega) (by omega), hAik, hAkk]
    · rw [ih5]
      exact sat_subRow_iff n k a f A b x han' hkn hak hkz

theorem tri_swap (n k p : Nat) (A : Mat) (hTri : TriBelow n k A) (hkp : k ≤ p) (hpn : p < n) :
    TriBelow n k (swapRows A k p) := by
  intro j hj i hin hji
  rw [swapRows_eval]
  by_cases hik : i = k
  · rw [if_pos hik]
    exact hTri j hj p hpn (by omega)
  · rw [if_neg hik]
    by_cases hip : i = p
    · rw [if_pos hip]
      exact hTri j hj k (by omega) (by omega)
    · rw [if_neg hip]
      exact hTri j hj i hin hji

theorem geStageV_spec (n : Nat) (x : Vec) (k : Nat) (s : Mat × Vec) (hk : k < n)
    (hTri : TriBelow n k s.1) (hp : s.1 k k ≠ 0) :
    TriBelow n (k + 1) (geStageV n s k).1 ∧
    (∀ r j', r ≤ k → (geStageV n s k).1 r j' = s.1 r j') ∧
    (∀ r, r ≤ k → (geStageV n s k).2 r = s.2 r) ∧
    (Sat n (geStageV n s k) x ↔ Sat n s x) := by
  have hkz : ∀ j < k, s.1 k j = 0 := fun j hj => hTri j hj k hk hj
  have hpair : s = (s.1, s.2) := rfl
  obtain ⟨h1, h2, h3, h4, h5⟩ :=
    geElimFold_spec n k x (n - (k + 1)) (k + 1) s.1 s.2 (by omega) (by omega) hkz
  have hfold : geStageV n s k =
      (List.range' (k + 1) (n - (k + 1))).foldl (geElimRowV n k) (s.1, s.2) := by
    rw [geStageV, ← hpair]
  refine ⟨?_, ?_, ?_, ?_⟩
  · intro j hj i hin hji
    rw [hfold]
    rcases Nat.lt_or_ge j k with hjk | hjk
    · rw [h3 i j hjk]
      exact hTri j hjk i hin hji
    · have hjeq : j = k := by omega
      subst hjeq
      rw [h4 i (by omega) (by omega), div_mul_cancel₀ _ hp, sub_self]
  · intro r j' hr
    rw [hfold, h1 r j' (Or.inl (by omega))]
  · intro r hr
    rw [hfold, h2 r (Or.inl (by omega))]
  · rw [← hfold, ← hpair] at h5
    exact h5

theorem geV_succ (n : Nat) (A0 : Mat) (b0 : Vec) (k : Nat) :
    geV n A0 b0 (k + 1) = geStageV n (geV n A0 b0 k) k := by
  rw [geV, geV, List.range_succ, List.foldl_append, List.foldl_cons, List.foldl_nil]

theorem geV_spec (n : Nat) (A0 : Mat) (b0 : Vec) (x : Vec) (hP : noZeroPivotGE n A0 b0) :
    ∀ k, k ≤ n → TriBelow n k (geV n A0 b0 k).1 ∧
      (Sat n (geV n A0 b0 k) x ↔ Sat n (A0, b0) x) ∧
      (∀ r, r < k → (geV n A0 b0 k).1 r r ≠ 0) := by
  intro k
  induction k with
  | zero =>
    intro _
    exact ⟨fun j hj => absurd hj (Nat.not_lt_zero j), Iff.rfl, fun r hr => absurd hr (by omega)⟩
  | succ k ih =>
    intro hk1
    obtain ⟨hTri, hSat, hDiag⟩ := ih (by omega)
    have hkn : k < n := by omega
    have hpk : (geV n A0 b0 k).1 k k ≠ 0 := hP k hkn
    obtain ⟨s1, s2, s3, s4⟩ := geStageV_spec n x k (geV n A0 b0 k) hkn hTri hpk
    rw [← geV_succ] at s1 s2 s3 s4
    refine ⟨s1, s4.trans hSat, ?_⟩
    intro r hr
    rcases Nat.lt_or_ge r k with hrk | hrk
    · rw [s2 r r (by omega)]
      exact hDiag r hrk
    · have : r = k := by omega
      subst this
      rw [s2 r r (le_refl r)]
      exact hpk

theorem backSubVal_congr (n : Nat) (A : Mat) (b : Vec) (x y : Vec) (i : Nat)
    (h : ∀ j, i < j → j < n → x j = y j) :
    backSubVal n A b x i = backSubVal n A b y i := by
  unfold backSubVal
  rw [foldl_add_range' (fun j => A i j * x j) (n - (i + 1)) (i + 1) 0,
    foldl_add_range' (fun j => A i j * y j) (n - (i + 1)) (i + 1) 0]
  have hsum : ∑ j in Finset.Ico (i + 1) (i + 1 + (n - (i + 1))), A i j * x j =
      ∑ j in Finset.Ico (i + 1) (i + 1 + (n - (i + 1))), A i j * y j := by
    apply Finset.sum_congr rfl
    intro j hj
    have hj' := Finset.mem_Ico.1 hj
    rw [h j (by omega) (by omega)]
  rw [hsum]

theorem bsV_stable (n : Nat) (A : Mat) (b : Vec) :
    ∀ (m : Nat) (x : Vec) (i : Nat), m ≤ i → bsV n A b m x i = x i := by
  intro m
  induction m with
  | zero => intro x i _; rfl
  | succ m ih =>
    intro x i hi
    rw [bsV, ih _ _ (by omega), upd_eval, if_neg (by omega)]

theorem bsV_fix (n : Nat) (A : Mat) (b : Vec) :
    ∀ (m : Nat) (x : Vec) (i : Nat), i < m → m ≤ n →
      bsV n A b m x i = backSubVal n A b (bsV n A b m x) i := by
  intro m
  induction m with
  | zero => intro x i hi _; omega
  | succ m ih =>
    intro x i hi hmn
    rw [bsV]
    by_cases him : i < m
    · exact ih _ _ him (by omega)
    · have hieq : i = m := by omega
      subst hieq
      rw [bsV_stable n A b i _ i (le_refl i), upd_eval, if_pos rfl]
      apply backSubVal_congr
      intro j hij hjn
      rw [bsV_stable n A b i _ j (by omega), upd_eval, if_neg (by omega)]

theorem rowSum_tri_split (n : Nat) (T : Mat) (x : Vec) (r : Nat) (hr : r < n)
    (hTri : TriBelow n n T) :
    rowSum n T x r = T r r * x r + ∑ j in Finset.Ico (r + 1) n, T r j * x j := by
  unfold rowSum
  rw [Finset.range_eq_Ico,
    ← Finset.sum_Ico_consecutive _ (Nat.zero_le r) (le_of_lt hr)]
  have h0 : ∑ j in Finset.Ico 0 r, T r j * x j = 0 := by
    apply Finset.sum_eq_zero
    intro j hj
    have hj' := Finset.mem_Ico.1 hj
    rw [hTri j (by omega) r hr (by omega)]
    ring
  rw [h0, zero_add, Finset.sum_eq_sum_Ico_succ_bot hr]

theorem bs_sat (n : Nat) (A : Mat) (b : Vec) (hTri : TriBelow n n A)
    (hdiag : ∀ i, i < n → A i i ≠ 0) :
    Sat n (A, b) (bsV n A b n (fun _ => 0)) := by
  intro r hr
  have hfix := bsV_fix n A b n (fun _ => 0) r hr (le_refl n)
  show rowSum n A (bsV n A b n (fun _ => 0)) r = b r
  rw [rowSum_tri_split n A (bsV n A b n (fun _ => 0)) r hr hTri]
  have hx : A r r * bsV n A b n (fun _ => 0) r =
      b r - ∑ j in Finset.Ico (r + 1) n, A r j * bsV n A b n (fun _ => 0) j := by
    rw [hfix]
    unfold backSubVal
    rw [foldl_add_range' (fun j => A r j * bsV n A b n (fun _ => 0) j) (n - (r + 1)) (r + 1) 0,
      show r + 1 + (n - (r + 1)) = n from by omega, zero_add, mul_comm,
      div_mul_cancel₀ _ (hdiag r hr)]
  rw [hx]
  ring

theorem tri_unique (n : Nat) (T : Mat) (c : Vec) (x y : Vec) (hTri : TriBelow n n T)
    (hdiag : ∀ i, i < n → T i i ≠ 0) (hx : Sat n (T, c) x) (hy : Sat n (T, c) y) :
    ∀ i, i < n → x i = y i := by
  have H : ∀ d i, i < n → n - i ≤ d → x i = y i := by
    intro d
    induction d with
    | zero => intro i hi hd; omega
    | succ d ih =>
      intro i hi hd
      have hxr := hx i hi
      have hyr := hy i hi
      rw [show ((T, c) : Mat × Vec).1 = T from rfl, show ((T, c) : Mat × Vec).2 = c from rfl,
        rowSum_tri_split n T x i hi hTri] at hxr
      rw [show ((T, c) : Mat × Vec).1 = T from rfl, show ((T, c) : Mat × Vec).2 = c from rfl,
        rowSum_tri_split n T y i hi hTri] at hyr
      have hsum : ∑ j in Finset.Ico (i + 1) n, T i j * x j =
          ∑ j in Finset.Ico (i + 1) n, T i j * y j := by
        apply Finset.sum_congr rfl
        intro j hj
        have hj' := Finset.mem_Ico.1 hj
        rw [ih j (by omega) (by omega)]
      rw [hsum] at hxr
      have : T i i * x i = T i i * y i := by linarith
      exact mul_left_cancel₀ (hdiag i hi) this
  exact fun i hi => H (n - i) i hi (le_refl _)

theorem pivSwapV_spec (n k : Nat) (s : Mat × Vec) (x : Vec) (hk : k < n)
    (hTri : TriBelow n k s.1) :
    TriBelow n k (pivSwapV n k s).1 ∧
    (∀ r j', r < k → (pivSwapV n k s).1 r j' = s.1 r j') ∧
    (∀ r, r < k → (pivSwapV n k s).2 r = s.2 r) ∧
    (Sat n (pivSwapV n k s) x ↔ Sat n s x) := by
  obtain ⟨hp1, hp2, _, _⟩ := pivotSearch_spec s.1 k n hk
  unfold pivSwapV
  by_cases hc : pivotSearch s.1 k n ≠ k
  · rw [if_pos hc]
    refine ⟨tri_swap n k (pivotSearch s.1 k n) s.1 hTri hp1 hp2, ?_, ?_, ?_⟩
    · intro r j' hr
      rw [show ((swapRows s.1 k (pivotSearch s.1 k n), swapVec s.2 k (pivotSearch s.1 k n)) :
          Mat × Vec).1 = swapRows s.1 k (pivotSearch s.1 k n) from rfl,
        swapRows_eval, if_neg (by omega), if_neg (by omega)]
    · intro r hr
      rw [show ((swapRows s.1 k (pivotSearch s.1 k n), swapVec s.2 k (pivotSearch s.1 k n)) :
          Mat × Vec).2 = swapVec s.2 k (pivotSearch s.1 k n) from rfl,
        swapVec_eval, if_neg (by omega), if_neg (by omega)]
    · have h := sat_swap_iff n k (pivotSearch s.1 k n) s.1 s.2 x hk hp2
      rw [show ((s.1, s.2) : Mat × Vec) = s from rfl] at h
      exact h
  · rw [if_neg hc]
    exact ⟨hTri, fun r j' _ => rfl, fun r _ => rfl, Iff.rfl⟩

theorem pivStageV_spec (n : Nat) (x : Vec) (k : Nat) (s : Mat × Vec) (hk : k < n)
    (hTri : TriBelow n k s.1) (hp : (pivSwapV n k s).1 k k ≠ 0) :
    TriBelow n (k + 1) (pivStageV n s k).1 ∧
    (∀ r j', r < k → (pivStageV n s k).1 r j' = s.1 r j') ∧
    (∀ r, r < k → (pivStageV n s k).2 r = s.2 r) ∧
    ((pivStageV n s k).1 k k = (pivSwapV n k s).1 k k) ∧
    (Sat n (pivStageV n s k) x ↔ Sat n s x) := by
  obtain ⟨w1, w2, w3, w4⟩ := pivSwapV_spec n k s x hk hTri
  have hkz : ∀ j < k, (pivSwapV n k s).1 k j = 0 := fun j hj => w1 j hj k hk hj
  obtain ⟨h1, h2, h3, h4, h5⟩ :=
    geElimFold_spec n k x (n - (k + 1)) (k + 1) (pivSwapV n k s).1 (pivSwapV n k s).2
      (by omega) (by omega) hkz
  have hpair : pivSwapV n k s = ((pivSwapV n k s).1, (pivSwapV n k s).2) := rfl
  have hfold : pivStageV n s k =
      (List.range' (k + 1) (n - (k + 1))).foldl (geElimRowV n k)
        ((pivSwapV n k s).1, (pivSwapV n k s).2) := by
    rw [pivStageV, ← hpair]
  refine ⟨?_, ?_, ?_, ?_, ?_⟩
  · intro j hj i hin hji
    rw [hfold]
    rcases Nat.lt_or_ge j k with hjk | hjk
    · rw [h3 i j hjk]
      exact w1 j hjk i hin hji
    · have hjeq : j = k := by omega
      subst hjeq
      rw [h4 i (by omega) (by omega), div_mul_cancel₀ _ hp, sub_self]
  · intro r j' hr
    rw [hfold, h1 r j' (Or.inl (by omega))]
    exact w2 r j' hr
  · intro r hr
    rw [hfold, h2 r (Or.inl (by omega))]
    exact w3 r hr
  · rw [hfold, h1 k k (Or.inl (by omega))]
  · rw [← hfold, ← hpair] at h5
    exact h5.trans w4

theorem pivV_succ (n : Nat) (A0 : Mat) (b0 : Vec) (k : Nat) :
    pivV n A0 b0 (k + 1) = pivStageV n (pivV n A0 b0 k) k := by
  rw [pivV, pivV, List.range_succ, List.foldl_append, List.foldl_cons, List.foldl_nil]

theorem pivV_spec (n : Nat) (A0 : Mat) (b0 : Vec) (x : Vec) (hP : noZeroPivotPiv n A0 b0) :
    ∀ k, k ≤ n → TriBelow n k (pivV n A0 b0 k).1 ∧
      (Sat n (pivV n A0 b0 k) x ↔ Sat n (A0, b0) x) ∧
      (∀ r, r < k → (pivV n A0 b0 k).1 r r ≠ 0) := by
  intro k
  induction k with
  | zero =>
    intro _
    exact ⟨fun j hj => absurd hj (Nat.not_lt_zero j), Iff.rfl, fun r hr => absurd hr (by omega)⟩
  | succ k ih =>
    intro hk1
    obtain ⟨hTri, hSat, hDiag⟩ := ih (by omega)
    have hkn : k < n := by omega
    have hpk := hP k hkn
    obtain ⟨s1, s2, s3, s4, s5⟩ := pivStageV_spec n x k (pivV n A0 b0 k) hkn hTri hpk
    rw [← pivV_succ] at s1 s2 s3 s4 s5
    refine ⟨s1, s5.trans hSat, ?_⟩
    intro r hr
    rcases Nat.lt_or_ge r k with hrk | hrk
    · rw [s2 r r (by omega)]
      exact hDiag r hrk
    · have : r = k := by omega
      subst this
      rw [s4]
      exact hpk

theorem colsId_swap (n k p : Nat) (A : Mat) (hCols : ColsId n k A) (hkp : k ≤ p)
    (hpn : p < n) : ColsId n k (swapRows A k p) := by
  intro j hj i hin
  rw [swapRows_eval]
  by_cases hik : i = k
  · rw [if_pos hik, hCols j hj p hpn, if_neg (by omega), if_neg (by omega)]
  · rw [if_neg hik]
    by_cases hip : i = p
    · rw [if_pos hip, hCols j hj k (by omega), if_neg (by omega), if_neg (by omega)]
    · rw [if_neg hip]
      exact hCols j hj i hin

theorem colsId_pivSwapV (n k : Nat) (s : Mat × Vec) (hk : k < n)
    (hCols : ColsId n k s.1) : ColsId n k (pivSwapV n k s).1 := by
  obtain ⟨hp1, hp2, _, _⟩ := pivotSearch_spec s.1 k n hk
  unfold pivSwapV
  by_cases hc : pivotSearch s.1 k n ≠ k
  · rw [if_pos hc]
    exact colsId_swap n k (pivotSearch s.1 k n) s.1 hCols hp1 hp2
  · rw [if_neg hc]
    exact hCols

theorem colsId_norm (n k : Nat) (p : ℚ) (A : Mat) (hkn : k ≤ n)
    (hCols : ColsId n k A) : ColsId n k (normRowA n k p A) := by
  intro j hj i hin
  rw [normRowA_eval n k p A i j hkn, if_neg (by rintro ⟨_, h, _⟩; omega)]
  exact hCols j hj i hin

theorem gjElimFold_spec (n k : Nat) (x : Vec) (hkn : k < n) :
    ∀ (m a : Nat) (A : Mat) (b : Vec), a + m ≤ n → (∀ j < k, A k j = 0) →
      (∀ r j', r < a ∨ a + m ≤ r →
        ((List.range' a m).foldl (gjElimRowV n k) (A, b)).1 r j' = A r j') ∧
      (∀ j', ((List.range' a m).foldl (gjElimRowV n k) (A, b)).1 k j' = A k j') ∧
      (∀ r j', j' < k →
        ((List.range' a m).foldl (gjElimRowV n k) (A, b)).1 r j' = A r j') ∧
      (∀ i, a ≤ i → i < a + m → i ≠ k →
        ((List.range' a m).foldl (gjElimRowV n k) (A, b)).1 i k =
          A i k - A i k * A k k) ∧
      (Sat n ((List.range' a m).foldl (gjElimRowV n k) (A, b)) x ↔ Sat n (A, b) x) := by
  intro m
  induction m with
  | zero =>
    intro a A b han hkz
    rw [show List.range' a 0 = [] from rfl, List.foldl_nil]
    exact ⟨fun r j' _ => rfl, fun j' => rfl, fun r j' _ => rfl,
      fun i h1 h2 _ => absurd (lt_of_le_of_lt h1 h2) (by omega), Iff.rfl⟩
  | succ m ih =>
    intro a A b han hkz
    rw [List.range'_succ, List.foldl_cons]
    by_cases hak : a = k
    · rw [show gjElimRowV n k (A, b) a = (A, b) from by rw [gjElimRowV, if_neg (by omega)]]
      obtain ⟨ih1, ih2, ih3, ih4, ih5⟩ := ih (a + 1) A b (by omega) hkz
      refine ⟨?_, ih2, ih3, ?_, ih5⟩
      · intro r j' hr
        rcases hr with hr | hr
        · rw [ih1 r j' (Or.inl (by omega))]
        · rw [ih1 r j' (Or.inr (by omega))]
      · intro i h1 h2 hik
        exact ih4 i (by omega) (by omega) hik
    · rw [show gjElimRowV n k (A, b) a =
          (subRowA n k a (A a k) A, subRowB k a (A a k) b) from by
            rw [gjElimRowV, if_pos hak]]
      set f := A a k with hf
      have hkz1 : ∀ j < k, subRowA n k a f A k j = 0 := by
        intro j hj
        rw [subRowA_eval n k a f A k j (le_of_lt hkn),
          if_neg (by rintro ⟨h, _⟩; exact hak h.symm)]
        exact hkz j hj
      obtain ⟨ih1, ih2, ih3, ih4, ih5⟩ :=
        ih (a + 1) (subRowA n k a f A) (subRowB k a f b) (by omega) hkz1
      have hrowk : ∀ j', subRowA n k a f A k j' = A k j' := by
        intro j'
        rw [subRowA_eval n k a f A k j' (le_of_lt hkn),
          if_neg (by rintro ⟨h, _⟩; exact hak h.symm)]
      refine ⟨?_, ?_, ?_, ?_, ?_⟩
      · intro r j' hr
        rw [ih1 r j' (by omega), subRowA_eval n k a f A r j' (le_of_lt hkn),
          if_neg (by rintro ⟨h, _⟩; omega)]
      · intro j'
        rw [ih2 j', hrowk j']
      · intro r j' hj
        rw [ih3 r j' hj, subRowA_eval n k a f A r j' (le_of_lt hkn),
          if_neg (by rintro ⟨_, h, _⟩; omega)]
      · intro i h1 h2 hik
        by_cases hia : i = a
        · subst hia
          rw [ih1 i k (by omega), subRowA_eval n k i f A i k (le_of_lt hkn),
            if_pos ⟨rfl, le_refl k, hkn⟩, hf]
        · have hAik : subRowA n k a f A i k = A i k := by
            rw [subRowA_eval n k a f A i k (le_of_lt hkn),
              if_neg (by rintro ⟨h, _⟩; exact hia h)]
          have hAkk : subRowA n k a f A k k = A k k := hrowk k
          rw [ih4 i (by omega) (by omega) hik, hAik, hAkk]
      · rw [ih5]
        have han' : a < n := by omega
        exact sat_subRow_iff n k a f A b x han' hkn hak hkz

theorem gjStageV_spec (n : Nat) (x : Vec) (k : Nat) (s : Mat × Vec) (hk : k < n)
    (hCols : ColsId n k s.1) (hp : (pivSwapV n k s).1 k k ≠ 0) :
    ColsId n (k + 1) (gjStageV n s k).1 ∧
    (Sat n (gjStageV n s k) x ↔ Sat n s x) := by
  have hColsSw : ColsId n k (pivSwapV n k s).1 := colsId_pivSwapV n k s hk hCols
  have hkzSw : ∀ j < k, (pivSwapV n k s).1 k j = 0 := by
    intro j hj
    rw [hColsSw j hj k hk, if_neg (by omega)]
  have hvpair : gjNormV n k (pivSwapV n k s) =
      (normRowA n k ((pivSwapV n k s).1 k k) (pivSwapV n k s).1,
        upd (pivSwapV n k s).2 k ((pivSwapV n k s).2 k / (pivSwapV n k s).1 k k)) := rfl
  have hColsV : ColsId n k (gjNormV n k (pivSwapV n k s)).1 := by
    rw [hvpair]
    exact colsId_norm n k _ _ (le_of_lt hk) hColsSw
  have hvkk : (gjNormV n k (pivSwapV n k s)).1 k k = 1 := by
    rw [hvpair]
    show normRowA n k ((pivSwapV n k s).1 k k) (pivSwapV n k s).1 k k = 1
    rw [normRowA_eval n k _ _ k k (le_of_lt hk), if_pos ⟨rfl, le_refl k, hk⟩, div_self hp]
  have hkzV : ∀ j < k, (gjNormV n k (pivSwapV n k s)).1 k j = 0 := by
    intro j hj
    rw [hColsV j hj k hk, if_neg (by omega)]
  obtain ⟨e1, e2, e3, e4, e5⟩ :=
    gjElimFold_spec n k x hk n 0 (gjNormV n k (pivSwapV n k s)).1
      (gjNormV n k (pivSwapV n k s)).2 (by omega) hkzV
  have hvp : gjNormV n k (pivSwapV n k s) =
      ((gjNormV n k (pivSwapV n k s)).1, (gjNormV n k (pivSwapV n k s)).2) := rfl
  have hfold : gjStageV n s k =
      (List.range' 0 n).foldl (gjElimRowV n k)
        ((gjNormV n k (pivSwapV n k s)).1, (gjNormV n k (pivSwapV n k s)).2) := by
    rw [gjStageV, ← hvp, List.range_eq_range']
  constructor
  · intro j hj i hin
    rw [hfold]
    rcases Nat.lt_or_ge j k with hjk | hjk
    · rw [e3 i j hjk]
      exact hColsV j hjk i hin
    · have hjeq : j = k := by omega
      by_cases hik : i = k
      · rw [hjeq, hik, e2 k, hvkk, if_pos rfl]
      · rw [hjeq, e4 i (by omega) (by omega) hik, hvkk, if_neg hik]
        ring
  · rw [← hfold, ← hvp] at e5
    have hnorm : Sat n (gjNormV n k (pivSwapV n k s)) x ↔ Sat n (pivSwapV n k s) x := by
      rw [hvpair, show pivSwapV n k s = ((pivSwapV n k s).1, (pivSwapV n k s).2) from rfl]
      exact sat_norm_iff n k _ _ _ x hk hp hkzSw
    have hswap := (pivSwapV_spec n k s x hk (fun j hj i hin hji => by
      rw [hCols j hj i hin, if_neg (by omega)])).2.2.2
    exact (e5.trans hnorm).trans hswap

theorem gjV_succ (n : Nat) (A0 : Mat) (b0 : Vec) (k : Nat) :
    gjV n A0 b0 (k + 1) = gjStageV n (gjV n A0 b0 k) k := by
  rw [gjV, gjV, List.range_succ, List.foldl_append, List.foldl_cons, List.foldl_nil]

theorem gjV_spec (n : Nat) (A0 : Mat) (b0 : Vec) (x : Vec) (hP : noZeroPivotGJ n A0 b0) :
    ∀ k, k ≤ n → ColsId n k (gjV n A0 b0 k).1 ∧
      (Sat n (gjV n A0 b0 k) x ↔ Sat n (A0, b0) x) := by
  intro k
  induction k with
  | zero =>
    intro _
    exact ⟨fun j hj => absurd hj (Nat.not_lt_zero j), Iff.rfl⟩
  | succ k ih =>
    intro hk1
    obtain ⟨hCols, hSat⟩ := ih (by omega)
    have hkn : k < n := by omega
    obtain ⟨s1, s2⟩ := gjStageV_spec n x k (gjV n A0 b0 k) hkn hCols (hP k hkn)
    rw [← gjV_succ] at s1 s2
    exact ⟨s1, s2.trans hSat⟩

theorem rowSum_id (n : Nat) (A : Mat) (hA : ColsId n n A) (x : Vec) (r : Nat) (hr : r < n) :
    rowSum n A x r = x r := by
  unfold rowSum
  have hterm : ∀ j ∈ Finset.range n, A r j * x j = if r = j then x j else 0 := by
    intro j hj
    rw [hA j (Finset.mem_range.1 hj) r hr]
    by_cases hrj : r = j
    · rw [if_pos hrj, if_pos hrj, one_mul]
    · rw [if_neg hrj, if_neg hrj, zero_mul]
  rw [Finset.sum_congr rfl hterm, Finset.sum_ite_eq, if_pos (Finset.mem_range.2 hr)]

theorem gj_solution_sat (n : Nat) (A0 : Mat) (b0 : Vec) (hP : noZeroPivotGJ n A0 b0) :
    Sat n (A0, b0) ((gjV n A0 b0 n).2) := by
  obtain ⟨hCols, hSat⟩ := gjV_spec n A0 b0 ((gjV n A0 b0 n).2) hP n (le_refl n)
  apply hSat.1
  intro r hr
  exact rowSum_id n (gjV n A0 b0 n).1 hCols ((gjV n A0 b0 n).2) r hr

theorem geElimRow_AB (n k : Nat) (s : DState) (i : Nat) :
    ((geElimRow n k s i).A, (geElimRow n k s i).b) = geElimRowV n k (s.A, s.b) i := rfl

theorem geElimRow_fold_AB (n k : Nat) :
    ∀ (l : List Nat) (s : DState),
      ((l.foldl (geElimRow n k) s).A, (l.foldl (geElimRow n k) s).b) =
        l.foldl (geElimRowV n k) (s.A, s.b) := by
  intro l
  induction l with
  | nil => intro s; rfl
  | cons a t ih =>
    intro s
    rw [List.foldl_cons, List.foldl_cons, ih, geElimRow_AB]

theorem geStage_AB (n : Nat) (s : DState) (k : Nat) :
    ((geStage n s k).A, (geStage n s k).b) = geStageV n (s.A, s.b) k := by
  have h := geElimRow_fold_AB n k (List.range' (k + 1) (n - (k + 1)))
    (pushStep n s (.pivotSelect k) ⟨[], [], [(k, k)]⟩)
  exact h

theorem geState_succ (n : Nat) (A0 : Mat) (b0 : Vec) (k : Nat) :
    geState n A0 b0 (k + 1) = geStage n (geState n A0 b0 k) k := by
  rw [geState, geState, List.range_succ, List.foldl_append, List.foldl_cons, List.foldl_nil]

theorem geState_AB (n : Nat) (A0 : Mat) (b0 : Vec) :
    ∀ k, ((geState n A0 b0 k).A, (geState n A0 b0 k).b) = geV n A0 b0 k := by
  intro k
  induction k with
  | zero => rfl
  | succ k ih => rw [geState_succ, geV_succ, geStage_AB, ih]

theorem pivSwap_AB (n k : Nat) (s : DState) :
    ((pivSwap n k s).A, (pivSwap n k s).b) = pivSwapV n k (s.A, s.b) := by
  unfold pivSwap pivSwapV
  by_cases hc : pivotSearch s.A k n ≠ k
  · rw [if_pos hc, if_pos hc]
    rfl
  · rw [if_neg hc, if_neg hc]

theorem pivStage_AB (n : Nat) (s : DState) (k : Nat) :
    ((pivStage n s k).A, (pivStage n s k).b) = pivStageV n (s.A, s.b) k := by
  have h1 : ((pivStage n s k).A, (pivStage n s k).b) =
      (List.range' (k + 1) (n - (k + 1))).foldl (geElimRowV n k)
        ((pivSwap n k s).A, (pivSwap n k s).b) := by
    have h := geElimRow_fold_AB n k (List.range' (k + 1) (n - (k + 1)))
      (pushStep n (pivSwap n k s) (.pivotSelect k) ⟨[], [], [(k, k)]⟩)
    exact h
  have h2 : (List.range' (k + 1) (n - (k + 1))).foldl (geElimRowV n k)
      ((pivSwap n k s).A, (pivSwap n k s).b) = pivStageV n (s.A, s.b) k := by
    rw [pivSwap_AB]
    rfl
  exact h1.trans h2

theorem pivState_AB (n : Nat) (A0 : Mat) (b0 : Vec) :
    ∀ k, ((pivState n A0 b0 k).A, (pivState n A0 b0 k).b) = pivV n A0 b0 k := by
  intro k
  induction k with
  | zero => rfl
  | succ k ih => rw [pivState_succ, pivV_succ, pivStage_AB, ih]

theorem gjElimRow_AB (n k : Nat) (s : DState) (i : Nat) :
    ((gjElimRow n k s i).A, (gjElimRow n k s i).b) = gjElimRowV n k (s.A, s.b) i := by
  by_cases hik : i ≠ k
  · rw [show gjElimRow n k s i =
        { pushStep n s (.eliminate i k) ⟨[i, k], [], [(i, k)]⟩ with
          A := (gjElimRowV n k (s.A, s.b) i).1, b := (gjElimRowV n k (s.A, s.b) i).2 } from by
          rw [gjElimRow, if_pos hik]]
  · rw [show gjElimRow n k s i = s from by rw [gjElimRow, if_neg hik],
      show gjElimRowV n k (s.A, s.b) i = (s.A, s.b) from by rw [gjElimRowV, if_neg hik]]

theorem gjElimRow_fold_AB (n k : Nat) :
    ∀ (l : List Nat) (s : DState),
      ((l.foldl (gjElimRow n k) s).A, (l.foldl (gjElimRow n k) s).b) =
        l.foldl (gjElimRowV n k) (s.A, s.b) := by
  intro l
  induction l with
  | nil => intro s; rfl
  | cons a t ih =>
    intro s
    rw [List.foldl_cons, List.foldl_cons, ih, gjElimRow_AB]

theorem gjStage_AB (n : Nat) (s : DState) (k : Nat) :
    ((gjStage n s k).A, (gjStage n s k).b) = gjStageV n (s.A, s.b) k := by
  have h1 : ((gjStage n s k).A, (gjStage n s k).b) =
      (List.range n).foldl (gjElimRowV n k)
        (gjNormV n k ((pivSwap n k s).A, (pivSwap n k s).b)) := by
    have h := gjElimRow_fold_AB n k (List.range n)
      (pushStep n
        { pushStep n (pivSwap n k s) (.pivotSelect k) ⟨[], [], [(k, k)]⟩ with
          A := (gjNormV n k ((pivSwap n k s).A, (pivSwap n k s).b)).1,
          b := (gjNormV n k ((pivSwap n k s).A, (pivSwap n k s).b)).2 }
        (.normalize k) ⟨[k], [], []⟩)
    exact h
  have h2 : (List.range n).foldl (gjElimRowV n k)
      (gjNormV n k ((pivSwap n k s).A, (pivSwap n k s).b)) = gjStageV n (s.A, s.b) k := by
    rw [pivSwap_AB]
    rfl
  exact h1.trans h2

theorem gjState_succ (n : Nat) (A0 : Mat) (b0 : Vec) (k : Nat) :
    gjState n A0 b0 (k + 1) = gjStage n (gjState n A0 b0 k) k := by
  rw [gjState, gjState, List.range_succ, List.foldl_append, List.foldl_cons, List.foldl_nil]

theorem gjState_AB (n : Nat) (A0 : Mat) (b0 : Vec) :
    ∀ k, ((gjState n A0 b0 k).A, (gjState n A0 b0 k).b) = gjV n A0 b0 k := by
  intro k
  induction k with
  | zero => rfl
  | succ k ih => rw [gjState_succ, gjV_succ, gjStage_AB, ih]

theorem geBackSub_fold (n : Nat) :
    ∀ (l : List Nat) (s : DState) (x : Vec),
      (l.foldl (geBackSub n) (s, x)).1.A = s.A ∧
      (l.foldl (geBackSub n) (s, x)).1.b = s.b ∧
      (l.foldl (geBackSub n) (s, x)).2 =
        l.foldl (fun y i => upd y i (backSubVal n s.A s.b y i)) x := by
  intro l
  induction l with
  | nil => intro s x; exact ⟨rfl, rfl, rfl⟩
  | cons a t ih =>
    intro s x
    rw [List.foldl_cons, List.foldl_cons]
    have h := ih (pushStep n s (.solveRow a) ⟨[a], [], []⟩)
      (upd x a (backSubVal n s.A s.b x a))
    exact ⟨h.1, h.2.1, h.2.2⟩

theorem bsV_eq_foldl (n : Nat) (A : Mat) (b : Vec) :
    ∀ (m : Nat) (x : Vec),
      ((List.range m).reverse).foldl (fun y i => upd y i (backSubVal n A b y i)) x =
        bsV n A b m x := by
  intro m
  induction m with
  | zero => intro x; rfl
  | succ m ih =>
    intro x
    rw [List.range_succ,
      show ((List.range m) ++ [m]).reverse = m :: (List.range m).reverse from by
        rw [List.reverse_append]; rfl,
      List.foldl_cons, ih, bsV]

theorem solveGaussElimination_solution (n : Nat) (A0 : Mat) (b0 : Vec) :
    (solveGaussElimination n A0 b0).solution =
      vecList n (bsV n (geV n A0 b0 n).1 (geV n A0 b0 n).2 n (fun _ => 0)) := by
  have h := geBackSub_fold n ((List.range n).reverse)
    (pushStep n (geState n A0 b0 n) .backSubStart noHl) (fun _ => 0)
  have hsol : (solveGaussElimination n A0 b0).solution =
      vecList n ((((List.range n).reverse).foldl (geBackSub n)
        (pushStep n (geState n A0 b0 n) .backSubStart noHl, fun _ => 0)).2) := rfl
  rw [hsol, h.2.2]
  have hA : (pushStep n (geState n A0 b0 n) .backSubStart noHl).A = (geV n A0 b0 n).1 := by
    show ((geState n A0 b0 n).A, (geState n A0 b0 n).b).1 = (geV n A0 b0 n).1
    rw [geState_AB]
  have hb : (pushStep n (geState n A0 b0 n) .backSubStart noHl).b = (geV n A0 b0 n).2 := by
    show ((geState n A0 b0 n).A, (geState n A0 b0 n).b).2 = (geV n A0 b0 n).2
    rw [geState_AB]
  rw [hA, hb, bsV_eq_foldl]

theorem solveGaussEliminationWithPivoting_solution (n : Nat) (A0 : Mat) (b0 : Vec) :
    (solveGaussEliminationWithPivoting n A0 b0).solution =
      vecList n (bsV n (pivV n A0 b0 n).1 (pivV n A0 b0 n).2 n (fun _ => 0)) := by
  have h := geBackSub_fold n ((List.range n).reverse)
    (pushStep n (pivState n A0 b0 n) .backSubStart noHl) (fun _ => 0)
  have hsol : (solveGaussEliminationWithPivoting n A0 b0).solution =
      vecList n ((((List.range n).reverse).foldl (geBackSub n)
        (pushStep n (pivState n A0 b0 n) .backSubStart noHl, fun _ => 0)).2) := rfl
  rw [hsol, h.2.2]
  have hA : (pushStep n (pivState n A0 b0 n) .backSubStart noHl).A = (pivV n A0 b0 n).1 := by
    show ((pivState n A0 b0 n).A, (pivState n A0 b0 n).b).1 = (pivV n A0 b0 n).1
    rw [pivState_AB]
  have hb : (pushStep n (pivState n A0 b0 n) .backSubStart noHl).b = (pivV n A0 b0 n).2 := by
    show ((pivState n A0 b0 n).A, (pivState n A0 b0 n).b).2 = (pivV n A0 b0 n).2
    rw [pivState_AB]
  rw [hA, hb, bsV_eq_foldl]

theorem solveGaussJordan_solution (n : Nat) (A0 : Mat) (b0 : Vec) :
    (solveGaussJordan n A0 b0).solution = vecList n ((gjV n A0 b0 n).2) := by
  have h : (gjState n A0 b0 n).b = (gjV n A0 b0 n).2 := by
    show ((gjState n A0 b0 n).A, (gjState n A0 b0 n).b).2 = (gjV n A0 b0 n).2
    rw [gjState_AB]
  show vecList n (gjState n A0 b0 n).b = vecList n ((gjV n A0 b0 n).2)
  rw [h]

theorem vecList_getD (n : Nat) (v : Vec) (j : Nat) (h : j < n) :
    (vecList n v).getD j 0 = v j := by
  unfold vecList
  rw [List.getD_eq_getElem _ _ (by simpa using h), List.getElem_map, List.getElem_range]

theorem ge_roundtrip (n : Nat) (A0 : Mat) (b0 : Vec) (hP : noZeroPivotGE n A0 b0) :
    Sat n (A0, b0) (bsV n (geV n A0 b0 n).1 (geV n A0 b0 n).2 n (fun _ => 0)) := by
  obtain ⟨hTri, hSat, hDiag⟩ :=
    geV_spec n A0 b0 (bsV n (geV n A0 b0 n).1 (geV n A0 b0 n).2 n (fun _ => 0)) hP n (le_refl n)
  apply hSat.1
  exact bs_sat n (geV n A0 b0 n).1 (geV n A0 b0 n).2 hTri hDiag

theorem piv_roundtrip (n : Nat) (A0 : Mat) (b0 : Vec) (hP : noZeroPivotPiv n A0 b0) :
    Sat n (A0, b0) (bsV n (pivV n A0 b0 n).1 (pivV n A0 b0 n).2 n (fun _ => 0)) := by
  obtain ⟨hTri, hSat, hDiag⟩ :=
    pivV_spec n A0 b0 (bsV n (pivV n A0 b0 n).1 (pivV n A0 b0 n).2 n (fun _ => 0)) hP n (le_refl n)
  apply hSat.1
  exact bs_sat n (pivV n A0 b0 n).1 (pivV n A0 b0 n).2 hTri hDiag

/-- Claim C1: on every input on which no zero pivot is encountered, each direct
solver (`solveGaussElimination`, `solveGaussEliminationWithPivoting`,
`solveGaussJordan`) returns a solution `x` with `A·x = b` exactly, row by row,
over exact rational arithmetic. -/
theorem claim_C1 (n : Nat) (A : Mat) (b : Vec) :
    (noZeroPivotGE n A b → ∀ r, r < n →
      rowSum n A (fun j => (solveGaussElimination n A b).solution.getD j 0) r = b r) ∧
    (noZeroPivotPiv n A b → ∀ r, r < n →
      rowSum n A (fun j => (solveGaussEliminationWithPivoting n A b).solution.getD j 0) r
        = b r) ∧
    (noZeroPivotGJ n A b → ∀ r, r < n →
      rowSum n A (fun j => (solveGaussJordan n A b).solution.getD j 0) r = b r) := by
  refine ⟨?_, ?_, ?_⟩
  · intro hP r hr
    have hs := ge_roundtrip n A b hP
    have hcong : rowSum n A (fun j => (solveGaussElimination n A b).solution.getD j 0) r =
        rowSum n A (bsV n (geV n A b n).1 (geV n A b n).2 n (fun _ => 0)) r := by
      unfold rowSum
      apply Finset.sum_congr rfl
      intro j hj
      show A r j * (solveGaussElimination n A b).solution.getD j 0 =
        A r j * bsV n (geV n A b n).1 (geV n A b n).2 n (fun _ => 0) j
      rw [solveGaussElimination_solution, vecList_getD n _ j (Finset.mem_range.1 hj)]
    rw [hcong]
    exact hs r hr
  · intro hP r hr
    have hs := piv_roundtrip n A b hP
    have hcong : rowSum n A
        (fun j => (solveGaussEliminationWithPivoting n A b).solution.getD j 0) r =
        rowSum n A (bsV n (pivV n A b n).1 (pivV n A b n).2 n (fun _ => 0)) r := by
      unfold rowSum
      apply Finset.sum_congr rfl
      intro j hj
      show A r j * (solveGaussEliminationWithPivoting n A b).solution.getD j 0 =
        A r j * bsV n (pivV n A b n).1 (pivV n A b n).2 n (fun _ => 0) j
      rw [solveGaussEliminationWithPivoting_solution, vecList_getD n _ j (Finset.mem_range.1 hj)]
    rw [hcong]
    exact hs r hr
  · intro hP r hr
    have hs := gj_solution_sat n A b hP
    have hcong : rowSum n A (fun j => (solveGaussJordan n A b).solution.getD j 0) r =
        rowSum n A ((gjV n A b n).2) r := by
      unfold rowSum
      apply Finset.sum_congr rfl
      intro j hj
      show A r j * (solveGaussJordan n A b).solution.getD j 0 =
        A r j * (gjV n A b n).2 j
      rw [solveGaussJordan_solution, vecList_getD n _ j (Finset.mem_range.1 hj)]
    rw [hcong]
    exact hs r hr

/-- Claim C6: whenever both algorithms encounter no zero pivot,
`solveGaussJordan` returns exactly the same solution as
`solveGaussElimination`, even though their step traces differ. -/
theorem claim_C6 (n : Nat) (A : Mat) (b : Vec) (h1 : noZeroPivotGE n A b)
    (h2 : noZeroPivotGJ n A b) :
    (solveGaussJordan n A b).solution = (solveGaussElimination n A b).solution := by
  have hsE : Sat n (A, b) (bsV n (geV n A b n).1 (geV n A b n).2 n (fun _ => 0)) :=
    ge_roundtrip n A b h1
  have hsJ : Sat n (A, b) ((gjV n A b n).2) := gj_solution_sat n A b h2
  obtain ⟨hTriE, hSatE, hDiagE⟩ :=
    geV_spec n A b (bsV n (geV n A b n).1 (geV n A b n).2 n (fun _ => 0)) h1 n (le_refl n)
  obtain ⟨hTriJ, hSatJ, hDiagJ⟩ := geV_spec n A b ((gjV n A b n).2) h1 n (le_refl n)
  have huniq := tri_unique n (geV n A b n).1 (geV n A b n).2 ((gjV n A b n).2)
    (bsV n (geV n A b n).1 (geV n A b n).2 n (fun _ => 0)) hTriE hDiagE
    (hSatJ.2 hsJ) (hSatE.2 hsE)
  rw [solveGaussJordan_solution, solveGaussElimination_solution]
  unfold vecList
  apply List.map_congr_left
  intro j hj
  exact huniq j (by simpa using hj)

/-- Witness for claim C1 at the 1×1 system `2·x = 4`: all three no-zero-pivot
hypotheses hold and each solver returns a solution satisfying the original
equation. -/
theorem claim_C1_witness :
    noZeroPivotGE 1 tinyExA tinyExB ∧ noZeroPivotPiv 1 tinyExA tinyExB ∧
    noZeroPivotGJ 1 tinyExA tinyExB ∧
    rowSum 1 tinyExA (fun j => (solveGaussElimination 1 tinyExA tinyExB).solution.getD j 0) 0 =
      tinyExB 0 ∧
    rowSum 1 tinyExA
      (fun j => (solveGaussEliminationWithPivoting 1 tinyExA tinyExB).solution.getD j 0) 0 =
      tinyExB 0 ∧
    rowSum 1 tinyExA (fun j => (solveGaussJordan 1 tinyExA tinyExB).solution.getD j 0) 0 =
      tinyExB 0 := by
  have h1 : noZeroPivotGE 1 tinyExA tinyExB := by
    intro k hk
    have hk0 : k = 0 := by omega
    subst hk0
    show (geV 1 tinyExA tinyExB 0).1 0 0 ≠ 0
    norm_num [geV, tinyExA]
  have h2 : noZeroPivotPiv 1 tinyExA tinyExB := by
    intro k hk
    have hk0 : k = 0 := by omega
    subst hk0
    show (pivSwapV 1 0 (pivV 1 tinyExA tinyExB 0)).1 0 0 ≠ 0
    norm_num [pivV, pivSwapV, pivotSearch, List.range', tinyExA]
  have h3 : noZeroPivotGJ 1 tinyExA tinyExB := by
    intro k hk
    have hk0 : k = 0 := by omega
    subst hk0
    show (pivSwapV 1 0 (gjV 1 tinyExA tinyExB 0)).1 0 0 ≠ 0
    norm_num [gjV, pivSwapV, pivotSearch, List.range', tinyExA]
  exact ⟨h1, h2, h3, (claim_C1 1 tinyExA tinyExB).1 h1 0 (by norm_num),
    (claim_C1 1 tinyExA tinyExB).2.1 h2 0 (by norm_num),
    (claim_C1 1 tinyExA tinyExB).2.2 h3 0 (by norm_num)⟩

set_option maxRecDepth 100000 in
set_option maxHeartbeats 2000000 in
/-- Witness for claim C6 at the repository example 3×3 system: both solvers
encounter no zero pivot and Gauss-Jordan returns exactly the Gauss-elimination
solution. -/
theorem claim_C6_witness :
    noZeroPivotGE 3 exampleA exampleB ∧ noZeroPivotGJ 3 exampleA exampleB ∧
    (solveGaussJordan 3 exampleA exampleB).solution =
      (solveGaussElimination 3 exampleA exampleB).solution := by
  have h1 : noZeroPivotGE 3 exampleA exampleB := by
    intro k hk
    interval_cases k <;>
      norm_num [geV, geStageV, geElimRowV, subRowA, subRowB, upd, updM,
        List.range_succ, List.range', exampleA, exampleB]
  have h2 : noZeroPivotGJ 3 exampleA exampleB := by
    intro k hk
    interval_cases k <;>
      norm_num [gjV, gjStageV, gjNormV, gjElimRowV, pivSwapV, pivotSearch, normRowA,
        subRowA, subRowB, upd, updM, List.range_succ, List.range', exampleA, exampleB,
        abs_of_nonneg, abs_of_nonpos]
  exact ⟨h1, h2, claim_C6 3 exampleA exampleB h1 h2⟩

end LinearSolver
